import Mathlib

/-!
Verification of the `object-template` bidirectional JSON templating engine
(`lib/index.js`, `lib/string.js`, `lib/regexes.js`) against its
natural-language specification.

The JavaScript code is shallowly embedded: JSON-like runtime values become the
inductive type `JValue` (with an explicit `undef` constructor for JavaScript's
`undefined`), exceptions become `Except TemplateError`, and the regular
expressions of `lib/regexes.js` — which all have the fixed shape
`open-delimiter ((\w+):)? ([\w$_\.\[\]]+) close-delimiter` — are embedded as
executable matchers with the exact greedy-plus-backtracking semantics of the
JavaScript engine on that shape.  Numbers are modelled as rationals with exact
decimal semantics, which is adequate for the finite decimal literals the
library parses and prints.
-/

namespace ObjectTemplate

/-- JSON-like runtime value, including JavaScript `undefined` (`undef`). -/
inductive JValue where
  | undef : JValue
  | null : JValue
  | bool : Bool → JValue
  | num : ℚ → JValue
  | str : String → JValue
  | arr : List JValue → JValue
  | obj : List (String × JValue) → JValue

mutual

/-- Structural Boolean equality on `JValue`. -/
def beqJ : JValue → JValue → Bool
  | .undef, .undef => true
  | .null, .null => true
  | .bool a, .bool b => a == b
  | .num a, .num b => a == b
  | .str a, .str b => a == b
  | .arr xs, .arr ys => beqJList xs ys
  | .obj fs, .obj gs => beqJFields fs gs
  | _, _ => false

/-- Structural Boolean equality on lists of `JValue`. -/
def beqJList : List JValue → List JValue → Bool
  | [], [] => true
  | x :: xs, y :: ys => beqJ x y && beqJList xs ys
  | _, _ => false

/-- Structural Boolean equality on field lists. -/
def beqJFields : List (String × JValue) → List (String × JValue) → Bool
  | [], [] => true
  | (k, v) :: fs, (m, w) :: gs => k == m && beqJ v w && beqJFields fs gs
  | _, _ => false

end

mutual

theorem beqJ_refl : ∀ a, beqJ a a = true
  | .undef => rfl
  | .null => rfl
  | .bool a => by simp [beqJ]
  | .num a => by simp [beqJ]
  | .str a => by simp [beqJ]
  | .arr xs => by simp [beqJ, beqJList_refl xs]
  | .obj fs => by simp [beqJ, beqJFields_refl fs]

theorem beqJList_refl : ∀ xs, beqJList xs xs = true
  | [] => rfl
  | x :: xs => by simp [beqJList, beqJ_refl x, beqJList_refl xs]

theorem beqJFields_refl : ∀ fs, beqJFields fs fs = true
  | [] => rfl
  | (k, v) :: fs => by simp [beqJFields, beqJ_refl v, beqJFields_refl fs]

end

mutual

theorem beqJ_sound : ∀ a b, beqJ a b = true → a = b
  | .undef, .undef, _ => rfl
  | .null, .null, _ => rfl
  | .bool a, .bool b, h => by simpa [beqJ] using h
  | .num a, .num b, h => by simpa [beqJ] using h
  | .str a, .str b, h => by simpa [beqJ] using h
  | .arr xs, .arr ys, h => by
      simpa using congrArg JValue.arr (beqJList_sound xs ys (by simpa [beqJ] using h))
  | .obj fs, .obj gs, h => by
      simpa using congrArg JValue.obj (beqJFields_sound fs gs (by simpa [beqJ] using h))
  | .undef, .null, h => by simp [beqJ] at h
  | .undef, .bool _, h => by simp [beqJ] at h
  | .undef, .num _, h => by simp [beqJ] at h
  | .undef, .str _, h => by simp [beqJ] at h
  | .undef, .arr _, h => by simp [beqJ] at h
  | .undef, .obj _, h => by simp [beqJ] at h
  | .null, .undef, h => by simp [beqJ] at h
  | .null, .bool _, h => by simp [beqJ] at h
  | .null, .num _, h => by simp [beqJ] at h
  | .null, .str _, h => by simp [beqJ] at h
  | .null, .arr _, h => by simp [beqJ] at h
  | .null, .obj _, h => by simp [beqJ] at h
  | .bool _, .undef, h => by simp [beqJ] at h
  | .bool _, .null, h => by simp [beqJ] at h
  | .bool _, .num _, h => by simp [beqJ] at h
  | .bool _, .str _, h => by simp [beqJ] at h
  | .bool _, .arr _, h => by simp [beqJ] at h
  | .bool _, .obj _, h => by simp [beqJ] at h
  | .num _, .undef, h => by simp [beqJ] at h
  | .num _, .null, h => by simp [beqJ] at h
  | .num _, .bool _, h => by simp [beqJ] at h
  | .num _, .str _, h => by simp [beqJ] at h
  | .num _, .arr _, h => by simp [beqJ] at h
  | .num _, .obj _, h => by simp [beqJ] at h
  | .str _, .undef, h => by simp [beqJ] at h
  | .str _, .null, h => by simp [beqJ] at h
  | .str _, .bool _, h => by simp [beqJ] at h
  | .str _, .num _, h => by simp [beqJ] at h
  | .str _, .arr _, h => by simp [beqJ] at h
  | .str _, .obj _, h => by simp [beqJ] at h
  | .arr _, .undef, h => by simp [beqJ] at h
  | .arr _, .null, h => by simp [beqJ] at h
  | .arr _, .bool _, h => by simp [beqJ] at h
  | .arr _, .num _, h => by simp [beqJ] at h
  | .arr _, .str _, h => by simp [beqJ] at h
  | .arr _, .obj _, h => by simp [beqJ] at h
  | .obj _, .undef, h => by simp [beqJ] at h
  | .obj _, .null, h => by simp [beqJ] at h
  | .obj _, .bool _, h => by simp [beqJ] at h
  | .obj _, .num _, h => by simp [beqJ] at h
  | .obj _, .str _, h => by simp [beqJ] at h
  | .obj _, .arr _, h => by simp [beqJ] at h

theorem beqJList_sound : ∀ xs ys, beqJList xs ys = true → xs = ys
  | [], [], _ => rfl
  | x :: xs, y :: ys, h => by
      have h2 := by simpa [beqJList] using h
      rw [beqJ_sound x y h2.1, beqJList_sound xs ys h2.2]
  | [], _ :: _, h => by simp [beqJList] at h
  | _ :: _, [], h => by simp [beqJList] at h

theorem beqJFields_sound :
    ∀ fs gs : List (String × JValue), beqJFields fs gs = true → fs = gs
  | [], [], _ => rfl
  | (k, v) :: fs, (m, w) :: gs, h => by
      have h2 := by simpa [beqJFields] using h
      rw [h2.1.1, beqJ_sound v w h2.1.2, beqJFields_sound fs gs h2.2]
  | [], _ :: _, h => by simp [beqJFields] at h
  | _ :: _, [], h => by simp [beqJFields] at h

end

instance : DecidableEq JValue := fun a b =>
  if h : beqJ a b = true then .isTrue (beqJ_sound a b h)
  else .isFalse (fun he => h (he ▸ beqJ_refl a))

instance {ε α : Type} [DecidableEq ε] [DecidableEq α] : DecidableEq (Except ε α) :=
  fun a b =>
    match a, b with
    | .ok v, .ok w =>
        if h : v = w then .isTrue (by rw [h]) else .isFalse (by simp [h])
    | .error v, .error w =>
        if h : v = w then .isTrue (by rw [h]) else .isFalse (by simp [h])
    | .ok _, .error _ => .isFalse (by simp)
    | .error _, .ok _ => .isFalse (by simp)

/-- JavaScript `\w` character class: ASCII letters, digits and underscore. -/
def isWordChar (c : Char) : Bool :=
  (c ≥ 'a' && c ≤ 'z') || (c ≥ 'A' && c ≤ 'Z') || (c ≥ '0' && c ≤ '9') || c = '_'

/-- The property character class `[\w$_\.\[\]]` of `lib/regexes.js`. -/
def isPropChar (c : Char) : Bool :=
  isWordChar c || c = '$' || c = '.' || c = '[' || c = ']'

/-- ASCII whitespace used by the model of `String.prototype.trim`. -/
def isWsChar (c : Char) : Bool :=
  c = ' ' || c = '\t' || c = '\n' || c = '\r' || c = '\x0c' || c = '\x0b'

/-- Model of JavaScript `String.prototype.trim` (on ASCII whitespace). -/
def jsTrim (l : List Char) : List Char :=
  ((l.dropWhile isWsChar).reverse.dropWhile isWsChar).reverse

/-- Split a character list on every occurrence of the two-character
separator `||`, as JavaScript `String.prototype.split` with argument `'||'`. -/
def splitOnPipes : List Char → List (List Char)
  | [] => [[]]
  | '|' :: '|' :: rest => [] :: splitOnPipes rest
  | c :: rest =>
      match splitOnPipes rest with
      | [] => [[c]]
      | p :: ps => (c :: p) :: ps

/-- Model of `interpolation.property.split('||').map(_.trim)` followed by the
destructuring `[ property, defaultValue ]` in `lib/string.js`. -/
def splitDefault (propExpr : String) : String × Option String :=
  let parts := (splitOnPipes propExpr.data).map jsTrim
  (String.mk (parts.headD []), (parts.get? 1).map String.mk)

/-- Model of `_.isUndefined(value) || _.isNil(value)` (string.js line 93):
JavaScript `undefined` and `null` count as missing. -/
def isNilJ : JValue → Bool
  | .undef => true
  | .null => true
  | _ => false

/-- Model of lodash `_.isPlainObject` on JSON-like values. -/
def isPlainObjB : JValue → Bool
  | .obj _ => true
  | _ => false

/-- Model of lodash `_.isString`. -/
def isStringB : JValue → Bool
  | .str _ => true
  | _ => false

/-- Model of lodash `_.isArray`. -/
def isArrB : JValue → Bool
  | .arr _ => true
  | _ => false

/-- First field with the given key (JavaScript object property lookup; real
JavaScript objects have unique keys, which all constructions here preserve). -/
def lookupField : List (String × JValue) → String → Option JValue
  | [], _ => none
  | (k, v) :: fs, key => if k = key then some v else lookupField fs key

/-- Replace the value of the first field with the given key, or append. -/
def setField : List (String × JValue) → String → JValue → List (String × JValue)
  | [], key, nv => [(key, nv)]
  | (k, v) :: fs, key, nv =>
      if k = key then (k, nv) :: fs else (k, v) :: setField fs key nv

/-- Strip a matching pair of single or double quotes (bracket path segments). -/
def stripQuotes (l : List Char) : List Char :=
  match l with
  | '"' :: rest => if rest.getLast? = some '"' then rest.dropLast else l
  | '\x27' :: rest => if rest.getLast? = some '\x27' then rest.dropLast else l
  | _ => l

/-- Modelled from lodash `stringToPath`: splits a property path on dots and
brackets, e.g. `a.b` into `[a, b]` and `a[0]` into `[a, 0]` (quoted bracket
segments are unquoted; exotic forms of the lodash grammar are out of scope). -/
def parsePathGo : Nat → List Char → List Char → List String
  | 0, _, acc => [String.mk acc.reverse]
  | _ + 1, [], acc => [String.mk acc.reverse]
  | fuel + 1, '.' :: rest, acc => String.mk acc.reverse :: parsePathGo fuel rest []
  | fuel + 1, '[' :: rest, acc =>
      let content := rest.takeWhile (fun c => c ≠ ']')
      let after := (rest.drop content.length).drop 1
      let afterDot := match after with
        | '.' :: r => r
        | r => r
      let seg := String.mk (stripQuotes content)
      if acc.isEmpty then seg :: parsePathGo fuel afterDot []
      else String.mk acc.reverse :: seg :: parsePathGo fuel afterDot []
  | fuel + 1, c :: rest, acc => parsePathGo fuel rest (c :: acc)

/-- Parse a lodash property path string into its key segments. -/
def parsePath (s : String) : List String :=
  parsePathGo (s.data.length + 1) s.data []

/-- Navigate a parsed path, yielding `undef` when absent.  A numeric key
indexes arrays and strings (lodash `baseGet`); the special `length` property
of strings and arrays is not modelled (never referenced by the library). -/
def navigatePath : JValue → List String → JValue
  | v, [] => v
  | .obj fs, k :: rest => navigatePath ((lookupField fs k).getD .undef) rest
  | .arr xs, k :: rest =>
      match k.toNat? with
      | some n => navigatePath ((xs.get? n).getD .undef) rest
      | none => navigatePath .undef rest
  | .str s, k :: rest =>
      match k.toNat? with
      | some n =>
          match s.data.get? n with
          | some c => navigatePath (.str (String.mk [c])) rest
          | none => navigatePath .undef rest
      | none => navigatePath .undef rest
  | _, _ :: _ => (.undef)

/-- Modelled from lodash `_.get`: a key that is itself an own property of the
object is used directly (lodash `isKey`'s `value in Object(object)` test);
otherwise the key is parsed as a dot/bracket path and navigated. -/
def jsGet (v : JValue) (key : String) : JValue :=
  match v with
  | .obj fs =>
      match lookupField fs key with
      | some w => w
      | none => navigatePath v (parsePath key)
  | _ => navigatePath v (parsePath key)

/-- Is the string a canonical array index (all decimal digits)? -/
def isIndexKey (k : String) : Bool :=
  decide (k.data ≠ []) && k.data.all Char.isDigit

/-- Write at an index, padding with `undef` like a sparse JavaScript array. -/
def setIndex (xs : List JValue) (n : Nat) (nv : JValue) : List JValue :=
  if n < xs.length then xs.set n nv
  else xs ++ List.replicate (n - xs.length) .undef ++ [nv]

/-- Modelled from lodash `baseSet`: walk/create containers along the path —
a numeric next segment creates an array, any other an object, and a
non-container intermediate value is replaced by a fresh container.  Setting a
string property on an array (never done by the library) is left as no-op. -/
def setPath : JValue → List String → JValue → JValue
  | _, [], nv => nv
  | .obj fs, k :: rest, nv =>
      let child := match lookupField fs k with
        | some c => if rest ≠ [] && !(isPlainObjB c || isArrB c) then freshFor rest else c
        | none => freshFor rest
      .obj (setField fs k (setPath child rest nv))
  | .arr xs, k :: rest, nv =>
      match k.toNat? with
      | some n =>
          let child := match xs.get? n with
            | some c => if rest ≠ [] && !(isPlainObjB c || isArrB c) then freshFor rest else c
            | none => freshFor rest
          .arr (setIndex xs n (setPath child rest nv))
      | none => .arr xs
  | v, _ :: _, _ => v
where
  /-- Fresh container for the next path segment (lodash `isIndex` test). -/
  freshFor : List String → JValue
    | k :: _ => if isIndexKey k then .arr [] else .obj []
    | [] => (.undef)

/-- Modelled from lodash `_.set` (same literal-key shortcut as `jsGet`). -/
def jsSet (v : JValue) (key : String) (nv : JValue) : JValue :=
  match v with
  | .obj fs =>
      match lookupField fs key with
      | some _ => .obj (setField fs key nv)
      | none => setPath v (parsePath key) nv
  | _ => setPath v (parsePath key) nv

mutual

/-- Modelled from lodash `_.merge`: plain objects merge per key recursively
and arrays merge index-wise; any other source value overwrites, except that
an `undefined` source value never overwrites an existing destination value
(`assignMergeValue`), while an absent key is assigned even when `undefined`. -/
def jsMerge : JValue → JValue → JValue
  | .obj dfs, .obj sfs => .obj (mergeFields dfs sfs)
  | .arr dxs, .arr sxs => .arr (mergeLists dxs sxs)
  | d, s => if s = .undef then d else s

/-- Fold the source fields into the destination fields. -/
def mergeFields (dfs : List (String × JValue)) :
    List (String × JValue) → List (String × JValue)
  | [] => dfs
  | (k, sv) :: sfs =>
      let dfs2 := match lookupField dfs k with
        | some dv => if sv = .undef then dfs else setField dfs k (jsMerge dv sv)
        | none => dfs ++ [(k, sv)]
      mergeFields dfs2 sfs

/-- Index-wise merge of array elements. -/
def mergeLists : List JValue → List JValue → List JValue
  | dxs, [] => dxs
  | [], sxs => sxs
  | d :: dxs, s :: sxs => jsMerge d s :: mergeLists dxs sxs

end

mutual

/-- Modelled from lodash `_.isEqual`: deep structural equality with
order-insensitive object comparison (equal key sets, equal values). -/
def jsIsEqual : JValue → JValue → Bool
  | .obj fs, .obj gs => fs.length == gs.length && jsIsEqualFields fs gs
  | .arr xs, .arr ys => jsIsEqualLists xs ys
  | a, b => beqJ a b

/-- Every field of the first list matches one of the second by key. -/
def jsIsEqualFields : List (String × JValue) → List (String × JValue) → Bool
  | [], _ => true
  | (k, v) :: fs, gs =>
      (match lookupField gs k with
       | some w => jsIsEqual v w
       | none => false) && jsIsEqualFields fs gs

/-- Pairwise equality of array elements. -/
def jsIsEqualLists : List JValue → List JValue → Bool
  | [], [] => true
  | x :: xs, y :: ys => jsIsEqual x y && jsIsEqualLists xs ys
  | _, _ => false

end

/-- The rational `± n · 10^e` built with kernel-friendly integer arithmetic. -/
def ratOfScaled (neg : Bool) (n : ℕ) (e : ℤ) : ℚ :=
  let m : ℤ := if neg then -(n : ℤ) else (n : ℤ)
  if e ≥ 0 then mkRat (m * (10 : ℤ) ^ e.toNat) 1
  else mkRat m ((10 : ℕ) ^ (-e).toNat)

/-- Smallest exponent `k ≤ 40` with `den ∣ 10^k` (finite decimal check). -/
def decExp (den : ℕ) : Option ℕ :=
  (List.range 41).find? (fun k => 10 ^ k % den == 0)

/-- Decimal digits of a natural number, padded on the left to `k` digits. -/
def padDigits (k : ℕ) (n : ℕ) : String :=
  let ds := toString n
  String.mk (List.replicate (k - ds.length) '0') ++ ds

/-- Model of JavaScript number-to-string conversion for the rationals arising
here: integers print without a decimal point, finite decimals print with the
fewest digits (`21.5`, `-3.3`); exponent notation for huge magnitudes and
non-decimal rationals (which the library never produces) are approximated. -/
def jsNumToString (q : ℚ) : String :=
  if q.den = 1 then toString q.num
  else
    match decExp q.den with
    | some k =>
        let s := (q.num * (10 : ℤ) ^ k / (q.den : ℤ)).natAbs
        (if q.num < 0 then "-" else "") ++ toString (s / 10 ^ k) ++ "." ++
          padDigits k (s % 10 ^ k)
    | none => toString q.num ++ "/" ++ toString q.den

mutual

/-- Model of JavaScript `String(value)` coercion: `undefined`/`null`/booleans
by name, numbers via `jsNumToString`, arrays join their elements with commas
(`null`/`undefined` elements render empty), objects as `[object Object]`. -/
def jsToString : JValue → String
  | .undef => "undefined"
  | .null => "null"
  | .bool b => if b then "true" else "false"
  | .num q => jsNumToString q
  | .str s => s
  | .arr xs => joinElems xs
  | .obj _ => "[object Object]"

/-- Comma-join of array elements for `Array.prototype.toString`. -/
def joinElems : List JValue → String
  | [] => ""
  | x :: xs =>
      (match x with
       | .undef => ""
       | .null => ""
       | v => jsToString v) ++ (if xs.isEmpty then "" else ",") ++ joinElems xs

end

/-- JSON escape for one character. -/
def escapeJsonChar (c : Char) : String :=
  if c = '"' then "\\\""
  else if c = '\\' then "\\\\"
  else if c = '\n' then "\\n"
  else if c = '\t' then "\\t"
  else if c = '\r' then "\\r"
  else if c = '\x08' then "\\b"
  else if c = '\x0c' then "\\f"
  else String.mk [c]

/-- A JSON string literal for `s`. -/
def quoteJson (s : String) : String :=
  "\"" ++ String.join (s.data.map escapeJsonChar) ++ "\""

mutual

/-- Model of `JSON.stringify` (no spacing): `undefined` has no encoding
(`none`), fields with `undefined` values are omitted, `undefined` array
elements encode as `null`. -/
def jsonStringify : JValue → Option String
  | .undef => none
  | .null => some "null"
  | .bool b => some (if b then "true" else "false")
  | .num q => some (jsNumToString q)
  | .str s => some (quoteJson s)
  | .arr xs => some ("[" ++ stringifyElems xs ++ "]")
  | .obj fs => some ("\x7b" ++ String.intercalate "," (stringifyFields fs) ++ "\x7d")

/-- Encoded array elements. -/
def stringifyElems : List JValue → String
  | [] => ""
  | x :: xs =>
      (match jsonStringify x with
       | some s => s
       | none => "null") ++ (if xs.isEmpty then "" else ",") ++ stringifyElems xs

/-- Encoded object fields, omitting `undefined` values. -/
def stringifyFields : List (String × JValue) → List String
  | [] => []
  | (k, v) :: fs =>
      match jsonStringify v with
      | some s => (quoteJson k ++ ":" ++ s) :: stringifyFields fs
      | none => stringifyFields fs

end

/-- JSON whitespace. -/
def isJsonWs (c : Char) : Bool :=
  c = ' ' || c = '\t' || c = '\n' || c = '\r'

/-- Digits to a natural number. -/
def natOfDigits (l : List Char) : ℕ :=
  l.foldl (fun n c => n * 10 + (c.toNat - 48)) 0

/-- Parse the body of a JSON string literal after the opening quote, returning
the decoded characters and the input after the closing quote. -/
def jsonParseStringBody : List Char → Option (List Char × List Char)
  | [] => none
  | '"' :: rest => some ([], rest)
  | '\\' :: c :: rest =>
      if c = 'u' then
        match rest with
        | a :: b :: d :: e :: rest2 =>
            if [a, b, d, e].all (fun x => x.isDigit ||
                (x ≥ 'a' && x ≤ 'f') || (x ≥ 'A' && x ≤ 'F')) then
              let hexVal := fun (x : Char) =>
                if x.isDigit then x.toNat - 48
                else if x ≥ 'a' && x ≤ 'f' then x.toNat - 87 else x.toNat - 55
              match jsonParseStringBody rest2 with
              | some (cs, r) =>
                  some (Char.ofNat (((hexVal a * 16 + hexVal b) * 16 +
                    hexVal d) * 16 + hexVal e) :: cs, r)
              | none => none
            else none
        | _ => none
      else
        let decoded :=
          if c = 'n' then some '\n'
          else if c = 't' then some '\t'
          else if c = 'r' then some '\r'
          else if c = 'b' then some '\x08'
          else if c = 'f' then some '\x0c'
          else if c = '"' || c = '\\' || c = '/' then some c
          else none
        match decoded, jsonParseStringBody rest with
        | some d, some (cs, r) => some (d :: cs, r)
        | _, _ => none
  | c :: rest =>
      match jsonParseStringBody rest with
      | some (cs, r) => some (c :: cs, r)
      | none => none

/-- Parse a JSON number (strict JSON grammar: optional minus, no leading
zeros, optional fraction and exponent), returning its exact rational value. -/
def jsonParseNumber (l : List Char) : Option (ℚ × List Char) :=
  let (neg, l1) := match l with
    | '-' :: r => (true, r)
    | r => (false, r)
  let intDigits := l1.takeWhile Char.isDigit
  if intDigits = [] then none
  else if intDigits.length > 1 && intDigits.headD '0' = '0' then none
  else
    let l2 := l1.drop intDigits.length
    let (fracDigits, l3) := match l2 with
      | '.' :: r => (r.takeWhile Char.isDigit, (r.takeWhile Char.isDigit).length |> r.drop)
      | r => ([], r)
    if l2 ≠ l3 && fracDigits = [] then none
    else
      let (expOk, expVal, l4) := match l3 with
        | 'e' :: r | 'E' :: r =>
            let (esgn, r2) := match r with
              | '+' :: rr => ((1 : ℤ), rr)
              | '-' :: rr => ((-1 : ℤ), rr)
              | rr => ((1 : ℤ), rr)
            let eds := r2.takeWhile Char.isDigit
            if eds = [] then (false, (0 : ℤ), r2)
            else (true, esgn * (natOfDigits eds : ℤ), r2.drop eds.length)
        | r => (true, (0 : ℤ), r)
      if !expOk then none
      else
        some (ratOfScaled neg (natOfDigits (intDigits ++ fracDigits))
          (expVal - fracDigits.length), l4)

mutual

/-- Model of `JSON.parse` value parsing (fuel-indexed; fuel of one plus the
input length always suffices since nesting consumes input). -/
def jsonParseVal : Nat → List Char → Option (JValue × List Char)
  | 0, _ => none
  | fuel + 1, l =>
      match l.dropWhile isJsonWs with
      | 'n' :: 'u' :: 'l' :: 'l' :: rest => some (.null, rest)
      | 't' :: 'r' :: 'u' :: 'e' :: rest => some (.bool true, rest)
      | 'f' :: 'a' :: 'l' :: 's' :: 'e' :: rest => some (.bool false, rest)
      | '"' :: rest =>
          match jsonParseStringBody rest with
          | some (cs, r) => some (.str (String.mk cs), r)
          | none => none
      | '[' :: rest =>
          match (rest.dropWhile isJsonWs) with
          | ']' :: r => some (.arr [], r)
          | _ =>
              match jsonParseArrItems fuel rest with
              | some (xs, r) => some (.arr xs, r)
              | none => none
      | '\x7b' :: rest =>
          match (rest.dropWhile isJsonWs) with
          | '\x7d' :: r => some (.obj [], r)
          | _ =>
              match jsonParseObjItems fuel rest with
              | some (fs, r) => some (.obj fs, r)
              | none => none
      | rest =>
          match jsonParseNumber rest with
          | some (q, r) => some (.num q, r)
          | none => none
termination_by structural fuel => fuel

/-- Comma-separated array items up to the closing bracket. -/
def jsonParseArrItems : Nat → List Char → Option (List JValue × List Char)
  | 0, _ => none
  | fuel + 1, l =>
      match jsonParseVal fuel l with
      | some (v, rest) =>
          match rest.dropWhile isJsonWs with
          | ',' :: r =>
              match jsonParseArrItems fuel r with
              | some (xs, r2) => some (v :: xs, r2)
              | none => none
          | ']' :: r => some ([v], r)
          | _ => none
      | none => none
termination_by structural fuel => fuel

/-- Comma-separated object fields up to the closing brace. -/
def jsonParseObjItems : Nat → List Char → Option (List (String × JValue) × List Char)
  | 0, _ => none
  | fuel + 1, l =>
      match l.dropWhile isJsonWs with
      | '"' :: rest =>
          match jsonParseStringBody rest with
          | some (kcs, r) =>
              match r.dropWhile isJsonWs with
              | ':' :: r2 =>
                  match jsonParseVal fuel r2 with
                  | some (v, r3) =>
                      match r3.dropWhile isJsonWs with
                      | ',' :: r4 =>
                          match jsonParseObjItems fuel r4 with
                          | some (fs, r5) => some ((String.mk kcs, v) :: fs, r5)
                          | none => none
                      | '\x7d' :: r4 => some ([(String.mk kcs, v)], r4)
                      | _ => none
                  | none => none
              | _ => none
          | none => none
      | _ => none
termination_by structural fuel => fuel

end

/-- Model of `JSON.parse` on a whole string (`none` models `SyntaxError`). -/
def jsonParse (s : String) : Option JValue :=
  match jsonParseVal (s.data.length + 1) s.data with
  | some (v, rest) => if rest.dropWhile isJsonWs = [] then some v else none
  | none => none

/-- Model of JavaScript `parseFloat`: skip leading whitespace, optional sign,
then the longest prefix of the form `digits [. digits] [e/E [sign] digits]`;
`none` models `NaN` (the `Infinity` literal is not modelled — the library
never produces it). -/
def jsParseFloat (s : String) : Option ℚ :=
  let l := s.data.dropWhile isWsChar
  let neg := l.headD ' ' = '-'
  let l1 := if l.headD ' ' = '-' || l.headD ' ' = '+' then l.drop 1 else l
  let d1 := l1.takeWhile Char.isDigit
  let l2 := l1.drop d1.length
  let d2 := if l2.headD ' ' = '.' then (l2.drop 1).takeWhile Char.isDigit else []
  let l3 := if l2.headD ' ' = '.' then (l2.drop 1).drop d2.length else l2
  if d1 = [] && d2 = [] then none
  else
    let expVal : ℤ :=
      if l3.headD ' ' = 'e' || l3.headD ' ' = 'E' then
        let r := l3.drop 1
        let esgn : ℤ := if r.headD ' ' = '-' then -1 else 1
        let r2 := if r.headD ' ' = '-' || r.headD ' ' = '+' then r.drop 1 else r
        let eds := r2.takeWhile Char.isDigit
        if eds = [] then 0 else esgn * (natOfDigits eds : ℤ)
      else 0
    some (ratOfScaled neg (natOfDigits (d1 ++ d2)) (expVal - d2.length))

/-- The failure kinds of the library (section 7 of the specification).  The
source throws plain `Error`s distinguished only by message; the constructor
records the kind and the data interpolated into the message.  The
`SyntaxError` thrown by `JSON.parse` is modelled as the specification's
CoercionError kind (its message also never begins with `Missing variable`,
the only prefix `matches` inspects). -/
inductive TemplateError where
  | missingVariable : String → TemplateError
  | coercionError : String → String → TemplateError
  | noMatchError : String → TemplateError
deriving DecidableEq

/-- The JavaScript error message of each failure. -/
def errMessage : TemplateError → String
  | .missingVariable e => "Missing variable " ++ e
  | .coercionError v t => "Can\x27t convert " ++ v ++ " to " ++ t
  | .noMatchError e => "No match for \x27" ++ e ++ "\x27"

/-- Kind test used to state claims about `matches`. -/
def isMissingVar : TemplateError → Bool
  | .missingVariable _ => true
  | _ => false

/-- Options accepted by the public operations (`delimiters` as the two-element
array, `allowMissing` as consumed by `string.interpolate`). -/
structure Options where
  delimiters : Option (String × String)
  allowMissing : Bool
deriving DecidableEq

/-- The option object `{}`. -/
def defaultOptions : Options := Options.mk none false

/-- A delimiter pair as literal character sequences. -/
structure Delims where
  openD : List Char
  closeD : List Char
deriving DecidableEq

/-- Interpretation of a delimiter string as a regular-expression fragment:
the spec requires delimiters to be regex-escaped, so a backslash-escaped
character stands for itself. -/
def unescapeRegex : List Char → List Char
  | [] => []
  | '\\' :: c :: rest => c :: unescapeRegex rest
  | c :: rest => c :: unescapeRegex rest

/-- The default `{{` / `}}` delimiters of `lib/regexes.js`. -/
def defaultDelims : Delims := Delims.mk ['{', '{'] ['}', '}']

/-- Model of `_.first(delimiters) || '{{'` and `_.last(delimiters) || '}}'`. -/
def delimsOf (opts : Options) : Delims :=
  match opts.delimiters with
  | none => defaultDelims
  | some (o, c) => Delims.mk (unescapeRegex o.data) (unescapeRegex c.data)

/-- Drop an expected literal prefix. -/
def dropPrefix : List Char → List Char → Option (List Char)
  | [], l => some l
  | _ :: _, [] => none
  | p :: ps, c :: cs => if p = c then dropPrefix ps cs else none

/-- Greedy match of the property class followed by the close delimiter,
with the backtracking of the regex engine: try the longest run of property
characters whose continuation starts with the close delimiter.  Returns the
property characters and the input after the close delimiter. -/
def tryPropClose (close l : List Char) : Nat → Option (List Char × List Char)
  | 0 => none
  | k + 1 =>
      match dropPrefix close (l.drop (k + 1)) with
      | some rest => some (l.take (k + 1), rest)
      | none => tryPropClose close l k

/-- Entry point for the greedy property/close match. -/
def matchPropClose (close l : List Char) : Option (List Char × List Char) :=
  tryPropClose close l (l.takeWhile isPropChar).length

/-- Anchored variant for the bounded regex: the close delimiter must also end
the string (`$`), so backtracking retries shorter property runs for that. -/
def tryPropCloseEnd (close l : List Char) : Nat → Option (List Char)
  | 0 => none
  | k + 1 =>
      match dropPrefix close (l.drop (k + 1)) with
      | some [] => some (l.take (k + 1))
      | _ => tryPropCloseEnd close l k

/-- Entry point for the anchored property/close match. -/
def matchPropCloseEnd (close l : List Char) : Option (List Char) :=
  tryPropCloseEnd close l (l.takeWhile isPropChar).length

/-- The optional type group `((\w+):)?`: a greedy word run must be followed
directly by a colon (shorter runs always fail since the next character is a
word character, exactly as the backtracking engine finds). -/
def tryTypeSplit (l : List Char) : Option (List Char × List Char) :=
  let w := l.takeWhile isWordChar
  if w ≠ [] && l.get? w.length = some ':' then some (w, l.drop (w.length + 1))
  else none

/-- A successful token match: captured type, captured property expression,
the full matched text, and the remaining input. -/
structure TokenMatch where
  ty : Option String
  propExpr : String
  text : String
  rest : List Char
deriving DecidableEq

/-- Match one interpolation token at the start of the input, per the regex
`open ((\w+):)? ([\w$_\.\[\]]+) close` with JavaScript backtracking: the type
group is tried first and dropped if no property/close continuation fits. -/
def matchTokenAt (d : Delims) (l : List Char) : Option TokenMatch :=
  match dropPrefix d.openD l with
  | none => none
  | some l1 =>
      let withType :=
        match tryTypeSplit l1 with
        | some (w, l2) =>
            match matchPropClose d.closeD l2 with
            | some (p, rest) => some (some w, p, rest)
            | none => none
        | none => none
      let result :=
        match withType with
        | some r => some r
        | none =>
            match matchPropClose d.closeD l1 with
            | some (p, rest) => some (none, p, rest)
            | none => none
      match result with
      | some (w, p, rest) =>
          let tyPart := match w with
            | some wc => wc ++ [':']
            | none => []
          some (TokenMatch.mk (w.map String.mk) (String.mk p)
            (String.mk (d.openD ++ tyPart ++ p ++ d.closeD)) rest)
      | none => none

/-- One step of the global scan: a matched token or one literal character. -/
inductive Part where
  | lit : Char → Part
  | tok : String → Part
deriving DecidableEq

/-- Model of scanning with a global (`g`) regex, as `String.prototype.match`:
successive leftmost matches, advancing one character past failures.  All
three regexes of `lib/regexes.js` match identically (they differ only in
capture groups), so one scanner serves them all. -/
def scanParts (d : Delims) : Nat → List Char → List Part
  | 0, _ => []
  | _ + 1, [] => []
  | fuel + 1, c :: rest =>
      match matchTokenAt d (c :: rest) with
      | some tm => .tok tm.text :: scanParts d fuel tm.rest
      | none => .lit c :: scanParts d fuel rest

/-- The list of matched token texts of a template string
(`template.match(templateInterpolation)`, with `null` as `[]`). -/
def findAll (d : Delims) (s : String) : List String :=
  (scanParts d (s.data.length + 1) s.data).filterMap fun p =>
    match p with
    | .tok t => some t
    | .lit _ => none

/-- Model of `regexes.execute` against the anchored bounded regex: the whole
string must be exactly one token. -/
def boundedMatch (d : Delims) (s : String) : Option (Option String × String) :=
  match dropPrefix d.openD s.data with
  | none => none
  | some l1 =>
      let withType :=
        match tryTypeSplit l1 with
        | some (w, l2) =>
            (matchPropCloseEnd d.closeD l2).map fun p => (some (String.mk w), String.mk p)
        | none => none
      match withType with
      | some r => some r
      | none =>
          (matchPropCloseEnd d.closeD l1).map fun p => ((none : Option String), String.mk p)

/-- Model of `regexes.execute` against the unbounded regex: captures of the
first token occurrence anywhere in the string. -/
def unboundedExecGo (d : Delims) : List Char → Option (Option String × String)
  | [] => none
  | c :: rest =>
      match matchTokenAt d (c :: rest) with
      | some tm => some (tm.ty, tm.propExpr)
      | none => unboundedExecGo d rest

/-- First-token captures of a string (`lib/regexes.js` `execute`). -/
def unboundedExec (d : Delims) (s : String) : Option (Option String × String) :=
  unboundedExecGo d s.data

/-- A piece of the skeleton regex built by
`template.replace(unboundedInterpolation, '(.+)')`: literal text or a
greedy capture group. -/
inductive Chunk where
  | lit : List Char → Chunk
  | group : Chunk
deriving DecidableEq

/-- Coalesce scanned parts into skeleton chunks. -/
def chunksOf : List Part → List Chunk
  | [] => []
  | .tok _ :: rest => .group :: chunksOf rest
  | .lit c :: rest =>
      match chunksOf rest with
      | .lit cs :: ks => .lit (c :: cs) :: ks
      | ks => .lit [c] :: ks

/-- The skeleton of a template string for `deinterpolate`'s case B.  The
literal text is matched verbatim: the model covers templates whose literal
text holds no regex metacharacters, which the specification itself singles
out as the only well-defined case for this fragile substitution. -/
def skeletonOf (d : Delims) (s : String) : List Chunk :=
  chunksOf (scanParts d (s.data.length + 1) s.data)

/-- Greedy group matching against a continuation: try captures from the
longest down to one character. -/
def tryGroupFn (matchRest : List Char → Option (List String)) (l : List Char) :
    Nat → Option (List String)
  | 0 => none
  | k + 1 =>
      match matchRest (l.drop (k + 1)) with
      | some caps => some (String.mk (l.take (k + 1)) :: caps)
      | none => tryGroupFn matchRest l k

/-- Backtracking matcher for a skeleton at a fixed position: literal chunks
match verbatim and each `(.+)` group greedily captures at least one
character.  Fuel of one plus the chunk count always suffices. -/
def matchChunksAt : Nat → List Chunk → List Char → Option (List String)
  | 0, _, _ => none
  | _ + 1, [], _ => some []
  | fuel + 1, .lit cs :: ks, l =>
      match dropPrefix cs l with
      | some rest => matchChunksAt fuel ks rest
      | none => none
  | fuel + 1, .group :: ks, l => tryGroupFn (matchChunksAt fuel ks) l l.length

/-- Leftmost-position search of `RegExp.prototype.exec` (no anchors):
try each start position left to right. -/
def execSkelFrom (ks : List Chunk) : List Char → Option (List String)
  | [] => matchChunksAt (ks.length + 1) ks []
  | c :: rest =>
      match matchChunksAt (ks.length + 1) ks (c :: rest) with
      | some caps => some caps
      | none => execSkelFrom ks rest

/-- Model of `templateRegex.exec(data)`: the captured substrings, or `none`
when the skeleton matches nowhere. -/
def execSkeleton (ks : List Chunk) (l : List Char) : Option (List String) :=
  execSkelFrom ks l

/-- Model of `transformValue` (string.js lines 35-61): `number` parses as a
float and the `_.isNaN` guard turns `NaN` into a CoercionError; `object`
passes plain objects through and otherwise `JSON.parse`s; `string` passes
strings through and otherwise `JSON.stringify`s; any other tag (including
none) is `_.identity`.  `parseFloat` and `JSON.parse` coerce a non-string
argument to a string first. -/
def transformValue (ty : Option String) (v : JValue) : Except TemplateError JValue :=
  match ty with
  | some "number" =>
      match jsParseFloat (jsToString v) with
      | some q => .ok (.num q)
      | none => .error (.coercionError (jsToString v) "number")
  | some "object" =>
      if isPlainObjB v then .ok v
      else
        match jsonParse (jsToString v) with
        | some w => .ok w
        | none => .error (.coercionError (jsToString v) "object")
  | some "string" =>
      if isStringB v then .ok v
      else
        .ok (match jsonStringify v with
          | some s => .str s
          | none => .undef)
  | _ => .ok v

/-- Replace the first occurrence of `pat` (JavaScript `String.replace` with a
string pattern; `$`-substitution patterns in the replacement are not
modelled — the library's replacements are plain coerced values). -/
def replaceFirstGo (pat rep : List Char) : List Char → List Char
  | [] => if pat.isPrefixOf [] then rep else []
  | c :: rest =>
      if pat.isPrefixOf (c :: rest) then rep ++ (c :: rest).drop pat.length
      else c :: replaceFirstGo pat rep rest

/-- Model of `_.replace(acc, match, replacement)` on strings. -/
def replaceFirst (s pat rep : String) : String :=
  String.mk (replaceFirstGo pat.data rep.data s.data)

/-- String view of the fold accumulator (lodash coerces it). -/
def asAccString : JValue → String
  | .str s => s
  | v => jsToString v

/-- One step of the `_.reduce` in `string.interpolate` over the matched token
texts (string.js lines 88-110), carrying the full match list and template for
the `collection.length === 1 && match === template` bounded test.  A match
text always re-matches the bounded regex, so the `none` branch is
unreachable (in JavaScript a failed `execute` would give `undefined`
captures and a `TypeError` on `.split`). -/
def interpolateStep (d : Delims) (opts : Options) (template : String)
    (data : JValue) (ms : List String) (acc : JValue) (m : String) :
    Except TemplateError JValue :=
  match boundedMatch d m with
  | none => .ok acc
  | some (ty, propExpr) =>
      let pd := splitDefault propExpr
      let go : JValue → Except TemplateError JValue := fun value =>
        if ms.length == 1 && m == template then transformValue ty value
        else
          match transformValue (some "string") value with
          | .ok sv => .ok (.str (replaceFirst (asAccString acc) m (asAccString sv)))
          | .error e => .error e
      let value := jsGet data pd.1
      if isNilJ value then
        match pd.2 with
        | none =>
            if opts.allowMissing then .ok (.str template)
            else .error (.missingVariable propExpr)
        | some dv =>
            match jsonParse dv with
            | some w => go w
            | none => .error (.coercionError dv "json")
      else go value

/-- Model of `string.interpolate` (string.js lines 84-111): fold the token
matches over the template string as accumulator. -/
def interpolate (template : String) (data : JValue) (opts : Options) :
    Except TemplateError JValue :=
  let d := delimsOf opts
  let ms := findAll d template
  ms.foldlM (interpolateStep d opts template data ms) (.str template)

/-- Model of `createSinglePropertyObject` composed with the coercion
(string.js lines 175-178). -/
def createSingle (ty : Option String) (property : String) (data : JValue) :
    Except TemplateError JValue :=
  match transformValue ty data with
  | .ok tv => .ok (jsSet (.obj []) property tv)
  | .error e => .error e

/-- Model of lodash `_.zip` over two string lists: pair up to the longer
length, padding with `undefined`. -/
def zipPad : List String → List String → List (Option String × Option String)
  | [], ys => ys.map fun y => (none, some y)
  | x :: xs, [] => (some x, none) :: zipPad xs []
  | x :: xs, y :: ys => (some x, some y) :: zipPad xs ys

/-- One step of the `_.reduce` in `deinterpolate`'s case B (string.js lines
187-207): a missing capture fails with NoMatchError naming the full
expression; a capture equal to the stringified default yields the parsed
default; otherwise the captured text is coerced and set at the path.  The
expression side of a pair is never `undefined` since captures never
outnumber expressions. -/
def deintStep (d : Delims) (acc : JValue) (pair : Option String × Option String) :
    Except TemplateError JValue :=
  match pair.1 with
  | none => .ok acc
  | some exprText =>
      match unboundedExec d exprText with
      | none => .ok acc
      | some (ty, propExpr) =>
          let pd := splitDefault propExpr
          match pair.2 with
          | none => .error (.noMatchError propExpr)
          | some vcap =>
              let withValue : JValue → Except TemplateError JValue := fun value =>
                match transformValue ty value with
                | .ok tv => .ok (jsSet acc pd.1 tv)
                | .error e => .error e
              match pd.2 with
              | some dv =>
                  match jsonParse dv with
                  | some pdv =>
                      if jsToString pdv == vcap then withValue pdv
                      else withValue (.str vcap)
                  | none => .error (.coercionError dv "json")
              | none => withValue (.str vcap)

/-- Model of `string.deinterpolate` (string.js lines 159-208).  Case A: the
template is one whole token; a result deep-equal to the parsed default is
emitted under the literal property text, otherwise the coerced result is set
along the parsed path.  Case B: the literal skeleton is matched against the
(string-coerced) result and each capture is processed by `deintStep`. -/
def deinterpolate (template : String) (data : JValue) (opts : Options) :
    Except TemplateError JValue :=
  let d := delimsOf opts
  match boundedMatch d template with
  | some (ty, propExpr) =>
      let pd := splitDefault propExpr
      match pd.2 with
      | some dv =>
          match jsonParse dv with
          | some pdv =>
              if jsIsEqual pdv data then .ok (.obj [(pd.1, pdv)])
              else createSingle ty pd.1 data
          | none => .error (.coercionError dv "json")
      | none => createSingle ty pd.1 data
  | none =>
      let allExpressions := findAll d template
      let allValues :=
        match execSkeleton (skeletonOf d template) (jsToString data).data with
        | some caps => caps
        | none => []
      (zipPad allExpressions allValues).foldlM (deintStep d) (.obj [])

/-- Numbered keys for the `_.mapValues`/`_.reduce` view of a string: lodash
iterates a string's own enumerable index properties, i.e. its characters. -/
def indexedChars (s : String) : List (String × JValue) :=
  s.data.enum.map fun ic => (toString ic.1, .str (String.mk [ic.2]))

/-- `_.mapValues` over a string template's characters: each one-character
value is a string, so the callback interpolates it. -/
def compileChars (cs : List Char) (i : Nat) (data : JValue) (opts : Options) :
    Except TemplateError (List (String × JValue)) :=
  match cs with
  | [] => .ok []
  | c :: rest =>
      match interpolate (String.mk [c]) data (Options.mk opts.delimiters false) with
      | .ok cv =>
          match compileChars rest (i + 1) data opts with
          | .ok crest => .ok ((toString i, cv) :: crest)
          | .error e => .error e
      | .error e => .error e

mutual

/-- Model of the public `compile` (index.js lines 49-69): `_.mapValues` over
the template's own keys (an object's fields; a string's characters; an
array's indices — lodash then returns a plain object in all cases), where a
plain-object value recurses, a string value interpolates — with only
`delimiters` forwarded, never `allowMissing` (index.js lines 56-58) — an
array value maps `compile` over its elements, and anything else passes
through. -/
def compile (template data : JValue) (opts : Options) : Except TemplateError JValue :=
  match template with
  | .obj fs =>
      match compileFields fs data opts with
      | .ok gs => .ok (.obj gs)
      | .error e => .error e
  | .str s =>
      match compileChars s.data 0 data opts with
      | .ok gs => .ok (.obj gs)
      | .error e => .error e
  | .arr xs =>
      match compileIndexed xs 0 data opts with
      | .ok gs => .ok (.obj gs)
      | .error e => .error e
  | _ => .ok (.obj [])
termination_by structural template

/-- The `_.mapValues` callback over object fields. -/
def compileFields (fs : List (String × JValue)) (data : JValue) (opts : Options) :
    Except TemplateError (List (String × JValue)) :=
  match fs with
  | [] => .ok []
  | (k, v) :: rest =>
      match compileValue v data opts with
      | .ok cv =>
          match compileFields rest data opts with
          | .ok crest => .ok ((k, cv) :: crest)
          | .error e => .error e
      | .error e => .error e
termination_by structural fs

/-- The `_.mapValues` callback over a top-level array template's indices. -/
def compileIndexed (xs : List JValue) (i : Nat) (data : JValue) (opts : Options) :
    Except TemplateError (List (String × JValue)) :=
  match xs with
  | [] => .ok []
  | x :: rest =>
      match compileValue x data opts with
      | .ok cv =>
          match compileIndexed rest (i + 1) data opts with
          | .ok crest => .ok ((toString i, cv) :: crest)
          | .error e => .error e
      | .error e => .error e
termination_by structural xs

/-- Dispatch of the `_.mapValues` callback on one value. -/
def compileValue (v data : JValue) (opts : Options) : Except TemplateError JValue :=
  match v with
  | .obj fs =>
      match compileFields fs data opts with
      | .ok gs => .ok (.obj gs)
      | .error e => .error e
  | .str s => interpolate s data (Options.mk opts.delimiters false)
  | .arr xs =>
      match compileList xs data opts with
      | .ok cxs => .ok (.arr cxs)
      | .error e => .error e
  | w => .ok w
termination_by structural v

/-- The `_.map` over array elements calls `exports.compile` on each element
(index.js lines 61-65) — so a non-object element goes through `_.mapValues`
again rather than through the value dispatch. -/
def compileList (xs : List JValue) (data : JValue) (opts : Options) :
    Except TemplateError (List JValue) :=
  match xs with
  | [] => .ok []
  | x :: rest =>
      match compile x data opts with
      | .ok cx =>
          match compileList rest data opts with
          | .ok crest => .ok (cx :: crest)
          | .error e => .error e
      | .error e => .error e
termination_by structural xs

end

/-- The reduce over a string template's characters: each one-character value
is a string, so the step deinterpolates it against the result looked up at
its index key. -/
def decompChars (cs : List Char) (i : Nat) (result : JValue) (opts : Options)
    (acc : JValue) : Except TemplateError JValue :=
  match cs with
  | [] => .ok acc
  | c :: rest =>
      match deinterpolate (String.mk [c]) (jsGet result (toString i))
          (Options.mk opts.delimiters false) with
      | .ok frag => decompChars rest (i + 1) result opts (jsMerge acc frag)
      | .error e => .error e

mutual

/-- Model of the public `decompile` (index.js lines 94-116): `_.reduce` over
the template's own keys with accumulator `{}`, looking the result value up
at each key with `_.get` and deep-merging the fragment of a plain-object
recursion, a string deinterpolation — again with only `delimiters`
forwarded — or an element-wise array walk. -/
def decompile (template result : JValue) (opts : Options) : Except TemplateError JValue :=
  match template with
  | .obj fs => decompFields fs result opts (.obj [])
  | .str s => decompChars s.data 0 result opts (.obj [])
  | .arr xs => decompIndexed xs 0 result opts (.obj [])
  | _ => .ok (.obj [])
termination_by structural template

/-- The reduce over object fields. -/
def decompFields (fs : List (String × JValue)) (result : JValue) (opts : Options)
    (acc : JValue) : Except TemplateError JValue :=
  match fs with
  | [] => .ok acc
  | (k, v) :: rest =>
      match decompStep k v result opts acc with
      | .ok acc2 => decompFields rest result opts acc2
      | .error e => .error e
termination_by structural fs

/-- The reduce over a top-level array template's indices. -/
def decompIndexed (xs : List JValue) (i : Nat) (result : JValue) (opts : Options)
    (acc : JValue) : Except TemplateError JValue :=
  match xs with
  | [] => .ok acc
  | x :: rest =>
      match decompStep (toString i) x result opts acc with
      | .ok acc2 => decompIndexed rest (i + 1) result opts acc2
      | .error e => .error e
termination_by structural xs

/-- One reduce step (index.js lines 95-114). -/
def decompStep (k : String) (v : JValue) (result : JValue) (opts : Options)
    (acc : JValue) : Except TemplateError JValue :=
  let stringValue := jsGet result k
  match v with
  | .obj fs =>
      match decompFields fs stringValue opts (.obj []) with
      | .ok frag => .ok (jsMerge acc frag)
      | .error e => .error e
  | .str s =>
      match deinterpolate s stringValue (Options.mk opts.delimiters false) with
      | .ok frag => .ok (jsMerge acc frag)
      | .error e => .error e
  | .arr txs =>
      match stringValue with
      | .arr es => decompEachList txs es opts acc
      | .str sv => decompEachList txs (sv.data.map fun c => .str (String.mk [c])) opts acc
      | _ => .ok acc
  | _ => .ok acc
termination_by structural v

/-- The `_.each(stringValue, …)` loop over the result's elements paired with
the template array by index (index.js lines 108-112).  Result elements
beyond the template's length go through `decompile(undefined, element)`,
which contributes the empty fragment, so the walk stops with the shorter
template; a plain-object result value at an array template position — never
produced by the library and unused by its tests — is not modelled. -/
def decompEachList (txs es : List JValue) (opts : Options) (acc : JValue) :
    Except TemplateError JValue :=
  match txs, es with
  | _, [] => .ok acc
  | [], _ :: _ => .ok acc
  | t :: trest, e :: erest =>
      match decompile t e opts with
      | .ok frag => decompEachList trest erest opts (jsMerge acc frag)
      | .error e2 => .error e2
termination_by structural txs

end

/-- Model of the public `matches` (index.js lines 138-152): decompile WITHOUT
forwarding the options (line 139), recompile with them, compare with
`_.isEqual`; a failure whose message begins with `Missing variable` (the
source's TODO-marked prefix test) yields `false`, every other failure is
rethrown. -/
def matchesTemplate (template object : JValue) (opts : Options) : Except TemplateError Bool :=
  match decompile template object defaultOptions with
  | .error e => .error e
  | .ok data =>
      match compile template data opts with
      | .ok c => .ok (jsIsEqual c object)
      | .error e =>
          if "Missing variable".data.isPrefixOf (errMessage e).data then .ok false
          else .error e

/-- Modelled from the spec: a hypothetical `matches` that forwards its
options to the internal decompile as well — what `matches` would be if
line 139 of index.js passed `options` on.  Used only to contrast with the
real `matches` for the claim about delimiter handling. -/
def matchesForwardingDelimiters (template object : JValue) (opts : Options) :
    Except TemplateError Bool :=
  match decompile template object opts with
  | .error e => .error e
  | .ok data =>
      match compile template data opts with
      | .ok c => .ok (jsIsEqual c object)
      | .error e =>
          if "Missing variable".data.isPrefixOf (errMessage e).data then .ok false
          else .error e

/-- The property expression of a template string that is exactly one untyped
token spanning the whole string: the bounded regex matches with no type
capture, the scan finds exactly that one match, and the expression carries no
default clause and is unchanged by trimming. -/
def wholeTokenLeaf (s : String) : Option String :=
  match boundedMatch defaultDelims s with
  | some (none, pe) =>
      if findAll defaultDelims s = [s] ∧ splitDefault pe = (pe, none) then some pe
      else none
  | _ => none

/-- A template string without any token under the default delimiters. -/
def tokenFreeB (s : String) : Bool :=
  findAll defaultDelims s == [] && (boundedMatch defaultDelims s).isNone

/-- Does this matched token resolve to a missing value in `data`: its path
looks up `undefined`/`null` and it carries no default clause. -/
def tokenMissing (data : JValue) (d : Delims) (m : String) : Bool :=
  match boundedMatch d m with
  | some (_, pe) =>
      isNilJ (jsGet data (splitDefault pe).1) && ((splitDefault pe).2).isNone
  | none => false

/-- Pairwise-distinct field keys (JavaScript objects cannot repeat keys). -/
def keysUniqueB : List (String × JValue) → Bool
  | [] => true
  | (k, _) :: rest => !(rest.any fun kv => kv.1 == k) && keysUniqueB rest

mutual

/-- Structural template predicate for the round-trip statement: object keys
are unique, every string leaf at an object position is token-free or one
whole untyped token, arrays hold only such objects, scalar leaves pass
through, and `undefined` never appears in a template. -/
def saneV : JValue → Bool
  | .undef => false
  | .null => true
  | .bool _ => true
  | .num _ => true
  | .str s => tokenFreeB s || (wholeTokenLeaf s).isSome
  | .arr xs => saneElems xs
  | .obj fs => keysUniqueB fs && saneFields fs

/-- Array elements must be sane objects. -/
def saneElems : List JValue → Bool
  | [] => true
  | .obj fs :: rest => saneV (.obj fs) && saneElems rest
  | _ :: _ => false

/-- All field values are sane. -/
def saneFields : List (String × JValue) → Bool
  | [] => true
  | (_, v) :: rest => saneV v && saneFields rest

end

mutual

/-- Are all paths referenced by the template's tokens non-missing in `D`? -/
def refsOKv (D : JValue) : JValue → Bool
  | .str s =>
      match wholeTokenLeaf s with
      | some pe => !isNilJ (jsGet D pe)
      | none => true
  | .arr xs => refsOKelems D xs
  | .obj fs => refsOKfields D fs
  | _ => true

/-- Reference check over array elements. -/
def refsOKelems (D : JValue) : List JValue → Bool
  | [] => true
  | x :: rest => refsOKv D x && refsOKelems D rest

/-- Reference check over fields. -/
def refsOKfields (D : JValue) : List (String × JValue) → Bool
  | [] => true
  | (_, v) :: rest => refsOKv D v && refsOKfields D rest

end

mutual

/-- The data fragment `decompile` reconstructs from a sane template and the
compilation of `D`: the fold of the per-leaf single-path fragments
`_.set({}, path, _.get(D, path))`, merged in template traversal order. -/
def rebuildFields (D : JValue) : List (String × JValue) → JValue → JValue
  | [], acc => acc
  | (_, v) :: rest, acc => rebuildFields D rest (rebuildStep D v acc)

/-- Fragment contribution of one template value. -/
def rebuildStep (D : JValue) (v : JValue) (acc : JValue) : JValue :=
  match v with
  | .obj fs => jsMerge acc (rebuildFields D fs (.obj []))
  | .str s =>
      jsMerge acc
        (match wholeTokenLeaf s with
         | some pe => jsSet (.obj []) pe (jsGet D pe)
         | none => .obj [])
  | .arr xs => rebuildElems D xs acc
  | _ => acc

/-- Fragment contributions of array elements. -/
def rebuildElems (D : JValue) : List JValue → JValue → JValue
  | [], acc => acc
  | .obj fs :: rest, acc => rebuildElems D rest (jsMerge acc (rebuildFields D fs (.obj [])))
  | _ :: rest, acc => rebuildElems D rest acc

end

mutual

/-- The value a sane template compiles to against `D`: a whole-token leaf
becomes the value at its path, a token-free leaf stays put, containers map
recursively, scalars pass through. -/
def compiledV (D : JValue) : JValue → JValue
  | .str s =>
      match wholeTokenLeaf s with
      | some pe => jsGet D pe
      | none => .str s
  | .obj fs => .obj (compiledFields D fs)
  | .arr xs => .arr (compiledElems D xs)
  | v => v

/-- Compiled object fields. -/
def compiledFields (D : JValue) : List (String × JValue) → List (String × JValue)
  | [] => []
  | (k, v) :: rest => (k, compiledV D v) :: compiledFields D rest

/-- Compiled array elements. -/
def compiledElems (D : JValue) : List JValue → List JValue
  | [] => []
  | x :: rest => compiledV D x :: compiledElems D rest

end

/-- The message-prefix test in `matches` (index.js line 146) coincides with
the error kind: exactly the MissingVariable messages begin with
`Missing variable`. -/
theorem errMessage_startsWith_iff (e : TemplateError) :
    "Missing variable".data.isPrefixOf (errMessage e).data = isMissingVar e := by
  cases e with
  | missingVariable x =>
      have h : "Missing variable".data <+: (("Missing variable " : String) ++ x).data := by
        rw [String.data_append]
        exact .trans (by decide) (List.prefix_append _ _)
      show _ = true
      simpa only [List.isPrefixOf_iff_prefix] using h
  | coercionError v t =>
      show _ = false
      cases hp : "Missing variable".data.isPrefixOf
          (errMessage (.coercionError v t)).data with
      | false => rfl
      | true =>
          exfalso
          have h := List.isPrefixOf_iff_prefix.mp hp
          simp only [errMessage, String.data_append, List.cons_append,
            List.append_assoc] at h
          exact absurd (List.cons_prefix_cons.mp h).1 (by decide)
  | noMatchError x =>
      show _ = false
      cases hp : "Missing variable".data.isPrefixOf
          (errMessage (.noMatchError x)).data with
      | false => rfl
      | true =>
          exfalso
          have h := List.isPrefixOf_iff_prefix.mp hp
          simp only [errMessage, String.data_append, List.cons_append,
            List.append_assoc] at h
          exact absurd (List.cons_prefix_cons.mp h).1 (by decide)

/-- C6: the claim says a token's default clause is parsed and used when the
path is missing (`compile('\x7b\x7bx || "Jane"\x7d\x7d', \x7b\x7d) == 'Jane'`, and the
whole-token decompile of `'Jane'` gives `\x7bx:'Jane'\x7d`).  The code cannot do
this: the property character class `[\w$_\.\[\]]` admits neither spaces,
pipes nor quotes, so no token containing `||` ever matches — the scan finds
no token, compile returns the template string unchanged, and decompile
returns the empty object, contradicting the repository's own README and the
default-value tests. -/
theorem c6_default_clause_unreachable :
    findAll defaultDelims "\x7b\x7bx || \x22Jane\x22\x7d\x7d" = [] ∧
    interpolate "\x7b\x7bx || \x22Jane\x22\x7d\x7d" (.obj []) defaultOptions =
      .ok (.str "\x7b\x7bx || \x22Jane\x22\x7d\x7d") ∧
    compile (.obj [("foo", .str "\x7b\x7bx || \x22Jane\x22\x7d\x7d")]) (.obj [])
      defaultOptions =
      .ok (.obj [("foo", .str "\x7b\x7bx || \x22Jane\x22\x7d\x7d")]) ∧
    deinterpolate "\x7b\x7bx || \x22Jane\x22\x7d\x7d" (.str "Jane") defaultOptions =
      .ok (.obj []) := by
  exact ⟨by decide, by decide, by decide, by decide⟩

/-- C9: the claim describes the bounded-match branch for a whole-token
template with a dotted path and a default clause (string.js lines 169-171),
which would emit the literal dotted text as a flat key.  That branch is
unreachable: a token with a default clause contains `||`, which the property
character class cannot match, so the bounded test fails, the scan finds no
token, and `deinterpolate('\x7b\x7ba.b || 5\x7d\x7d', 5)` returns `\x7b\x7d` rather
than the claimed `\x7b'a.b': 5\x7d`. -/
theorem c9_flat_key_branch_unreachable :
    boundedMatch defaultDelims "\x7b\x7ba.b || 5\x7d\x7d" = none ∧
    findAll defaultDelims "\x7b\x7ba.b || 5\x7d\x7d" = [] ∧
    deinterpolate "\x7b\x7ba.b || 5\x7d\x7d" (.num 5) defaultOptions = .ok (.obj []) := by
  exact ⟨by decide, by decide, by decide⟩

/-- C7: on a mixed literal-and-token template (bounded match fails, at least
one token), when the literal skeleton matches nowhere in the result value —
so every capture is absent — `deinterpolate` fails with NoMatchError naming
the first token's full path-expression. -/
theorem c7_nomatch_on_absent_capture (s : String) (rv : JValue) (opts : Options)
    (e : String) (es : List String) (ty : Option String) (pe : String)
    (hb : boundedMatch (delimsOf opts) s = none)
    (hf : findAll (delimsOf opts) s = e :: es)
    (hx : unboundedExec (delimsOf opts) e = some (ty, pe))
    (hskel : execSkeleton (skeletonOf (delimsOf opts) s) (jsToString rv).data = none) :
    deinterpolate s rv opts = .error (.noMatchError pe) := by
  unfold deinterpolate
  simp only [hb, hf, hskel]
  rw [show zipPad (e :: es) [] = (some e, none) :: zipPad es [] from rfl,
    List.foldlM_cons]
  unfold deintStep
  simp only [hx]
  rfl

/-- Witness for C7 at `deinterpolate('Foo \x7b\x7bx\x7d\x7d', 'Bar')`. -/
theorem c7_nomatch_witness :
    deinterpolate "Foo \x7b\x7bx\x7d\x7d" (.str "Bar") defaultOptions =
      .error (.noMatchError "x") :=
  c7_nomatch_on_absent_capture "Foo \x7b\x7bx\x7d\x7d" (.str "Bar") defaultOptions
    "\x7b\x7bx\x7d\x7d" [] none "x" (by decide) (by decide) (by decide) (by decide)

/-- C4: when the internal recompile of the decompiled data fails, `matches`
returns `false` exactly for the MissingVariable kind and rethrows every other
kind; the message-prefix test the source uses is equivalent to selecting by
kind, since only MissingVariable messages carry the `Missing variable`
prefix. -/
theorem c4_matches_downgrades_missing_only (t o : JValue) (opts : Options)
    (d : JValue) (e : TemplateError)
    (hd : decompile t o defaultOptions = .ok d)
    (hc : compile t d opts = .error e) :
    (matchesTemplate t o opts = .ok false ↔ isMissingVar e = true) ∧
    (isMissingVar e = false → matchesTemplate t o opts = .error e) ∧
    ∀ e2, "Missing variable".data.isPrefixOf (errMessage e2).data = isMissingVar e2 := by
  have hm : matchesTemplate t o opts =
      if "Missing variable".data.isPrefixOf (errMessage e).data then .ok false
      else .error e := by
    unfold matchesTemplate
    simp only [hd, hc]
  rw [errMessage_startsWith_iff] at hm
  refine ⟨?_, ?_, errMessage_startsWith_iff⟩
  · cases he : isMissingVar e with
    | true => simp [he] at hm; simp [hm]
    | false => simp [he] at hm; simp [hm]
  · intro he
    simp [he] at hm
    exact hm

/-- Witness for C4: `matches(\x7bfoo:'\x7b\x7bbar\x7d\x7d'\x7d, \x7b\x7d)` internally
recompiles to a MissingVariable failure and yields `false`. -/
theorem c4_matches_witness :
    matchesTemplate (.obj [("foo", .str "\x7b\x7bbar\x7d\x7d")]) (.obj [])
      defaultOptions = .ok false :=
  (c4_matches_downgrades_missing_only (.obj [("foo", .str "\x7b\x7bbar\x7d\x7d")])
    (.obj []) defaultOptions (.obj [("bar", .undef)]) (.missingVariable "bar")
    (by decide) (by decide)).1.mpr (by decide)

/-- C8: `matches` does not forward its options to the internal decompile
(index.js line 139), so `options.delimiters` affects only the recompile:
whenever the default-delimiter decompile succeeds, `matches` is the
comparison of the re-COMPILE (with the options) against the object.  On a
custom-delimiter template this differs observably from the forwarding
variant: `matches(\x7bfoo:'[bar]'\x7d, \x7bfoo:'x'\x7d, delimiters ['\\[','\\]'])`
is `false` (the default-delimiter decompile finds no token, so the recompile
hits a missing variable), while forwarding the delimiters would give
`true`. -/
theorem c8_matches_uses_default_delims_for_decompile :
    (∀ t o opts data, decompile t o defaultOptions = .ok data →
      matchesTemplate t o opts =
        (match compile t data opts with
         | .ok c => .ok (jsIsEqual c o)
         | .error e => if isMissingVar e then .ok false else .error e)) ∧
    matchesTemplate (.obj [("foo", .str "[bar]")]) (.obj [("foo", .str "x")])
      (Options.mk (some ("\\[", "\\]")) false) = .ok false ∧
    matchesForwardingDelimiters (.obj [("foo", .str "[bar]")])
      (.obj [("foo", .str "x")]) (Options.mk (some ("\\[", "\\]")) false) = .ok true := by
  refine ⟨?_, by decide, by decide⟩
  intro t o opts data hd
  unfold matchesTemplate
  simp only [hd]
  cases hc : compile t data opts with
  | ok c => simp only [hc]
  | error e =>
      have hpre := errMessage_startsWith_iff e
      cases he : isMissingVar e <;> rw [he] at hpre <;> simp [hc, hpre, he]

/-- Witness for C8's general part: a successful recompile instance. -/
theorem c8_matches_witness :
    matchesTemplate (.obj [("a", .str "\x7b\x7bx\x7d\x7d")]) (.obj [("a", .str "v")])
      defaultOptions = .ok true := by
  rw [c8_matches_uses_default_delims_for_decompile.1 (.obj [("a", .str "\x7b\x7bx\x7d\x7d")])
    (.obj [("a", .str "v")]) defaultOptions (.obj [("x", .str "v")]) (by decide)]
  decide

/-- A whitespace character is not a digit. -/
theorem ws_not_digit : ∀ c, isWsChar c = true → c.isDigit = false := by
  intro c h
  simp only [isWsChar, Bool.or_eq_true, decide_eq_true_eq] at h
  rcases h with ((((h | h) | h) | h) | h) | h <;> subst h <;> decide

/-- A digit is not whitespace. -/
theorem digit_not_ws {c : Char} (h : c.isDigit = true) : isWsChar c = false := by
  cases hw : isWsChar c with
  | false => rfl
  | true => rw [ws_not_digit c hw] at h; exact absurd h (by decide)

/-- A digit differs from any fixed non-digit character. -/
theorem digit_ne_of_not_digit {c d : Char} (h : c.isDigit = true)
    (hd : d.isDigit = false) : c ≠ d := by
  intro he
  rw [he, hd] at h
  exact absurd h (by decide)

/-- `takeWhile` runs through a satisfying prefix. -/
theorem takeWhile_append_all {p : Char → Bool} :
    ∀ l1 l2 : List Char, (∀ c ∈ l1, p c = true) →
      (l1 ++ l2).takeWhile p = l1 ++ l2.takeWhile p
  | [], _, _ => rfl
  | c :: l1, l2, h => by
      rw [List.cons_append, List.takeWhile_cons_of_pos (h c (by simp)),
        takeWhile_append_all l1 l2 (fun x hx => h x (by simp [hx])), List.cons_append]

/-- C10: the number cast fails with CoercionError exactly when float-parsing
the (string-coerced) value yields NaN, and a digit string followed by letters
such as `5abc` parses to its numeric prefix, so the cast succeeds with that
number rather than raising. -/
theorem c10_number_cast_parsefloat :
    (∀ v : JValue,
      (jsParseFloat (jsToString v) = none →
        transformValue (some "number") v =
          .error (.coercionError (jsToString v) "number")) ∧
      ∀ q, jsParseFloat (jsToString v) = some q →
        transformValue (some "number") v = .ok (.num q)) ∧
    ∀ (ds t2 : List Char) (c : Char), ds ≠ [] → ds.all Char.isDigit = true →
      c.isDigit = false → c ≠ '.' → c ≠ 'e' → c ≠ 'E' →
      transformValue (some "number") (.str (String.mk (ds ++ c :: t2))) =
        .ok (.num (mkRat (natOfDigits ds) 1)) := by
  constructor
  · intro v
    constructor
    · intro h
      unfold transformValue
      rw [h]
      rfl
    · intro q h
      unfold transformValue
      rw [h]
      rfl
  · intro ds t2 c hne hall hcd hcdot hce hcE
    have hdigits : ∀ x ∈ ds, x.isDigit = true := by
      intro x hx
      exact List.all_eq_true.mp hall x hx
    obtain ⟨d0, ds2, hds⟩ : ∃ d0 ds2, ds = d0 :: ds2 := by
      cases ds with
      | nil => exact absurd rfl hne
      | cons a l => exact ⟨a, l, rfl⟩
    have hd0 : d0.isDigit = true := hdigits d0 (by simp [hds])
    have hparse : jsParseFloat (String.mk (ds ++ c :: t2)) =
        some (mkRat (natOfDigits ds) 1) := by
      have hdata : (String.mk (ds ++ c :: t2)).data = ds ++ c :: t2 := rfl
      have hdrop : (ds ++ c :: t2).dropWhile isWsChar = ds ++ c :: t2 := by
        rw [hds, List.cons_append, List.dropWhile_cons_of_neg (by
          simp [digit_not_ws hd0])]
      have hhead : (ds ++ c :: t2).headD ' ' = d0 := by rw [hds]; rfl
      have hnminus : d0 ≠ '-' := digit_ne_of_not_digit hd0 (by decide)
      have hnplus : d0 ≠ '+' := digit_ne_of_not_digit hd0 (by decide)
      have htake : (ds ++ c :: t2).takeWhile Char.isDigit = ds := by
        rw [takeWhile_append_all ds (c :: t2) hdigits,
          List.takeWhile_cons_of_neg (by simp [hcd]), List.append_nil]
      have hdroplen : (ds ++ c :: t2).drop ds.length = c :: t2 := List.drop_left ds _
      unfold jsParseFloat
      rw [hdata]
      simp only [hdrop, hhead, hnminus, hnplus, htake, hdroplen, hne, hcdot, hce, hcE,
        List.headD_cons, decide_False, Bool.or_false, Bool.false_or, Bool.or_self,
        Bool.false_and, Bool.and_false, if_false, ite_false, decide_True,
        List.append_nil, List.length_nil, Nat.cast_zero, sub_zero, decide_eq_true_eq,
        if_neg, Bool.false_eq_true]
      unfold ratOfScaled
      norm_num
    unfold transformValue
    have hts : jsToString (.str (String.mk (ds ++ c :: t2))) =
        String.mk (ds ++ c :: t2) := rfl
    rw [hts, hparse]
    rfl

/-- Witness for C10 at the value `'5abc'`: parsing yields 5 and the cast
returns the number 5 without raising. -/
theorem c10_number_cast_witness :
    transformValue (some "number") (.str "5abc") = .ok (.num (mkRat (natOfDigits ['5']) 1)) :=
  c10_number_cast_parsefloat.2 ['5'] ['b', 'c'] 'a' (by decide) (by decide)
    (by decide) (by decide) (by decide) (by decide)

/-- When the scan result is not exactly the whole-string singleton, the
bounded test of the fold step is false for every match. -/
theorem bounded_cond_false {ms : List String} {template : String}
    (hne : ms ≠ [template]) {m : String} (hm : m ∈ ms) :
    (ms.length == 1 && m == template) = false := by
  cases hlen : ms.length == 1 with
  | false => rfl
  | true =>
      obtain ⟨a, ha⟩ := List.length_eq_one.mp (by simpa using hlen)
      subst ha
      have hma : m = a := by simpa using hm
      subst hma
      cases hbeq : m == template with
      | false => rfl
      | true => exact absurd (by rw [eq_of_beq hbeq]) hne

/-- A non-bounded fold step that succeeds yields a string accumulator. -/
theorem interpStep_string_preserve {d : Delims} {opts : Options}
    {template : String} {data : JValue} {ms : List String} {acc acc2 : JValue}
    {m : String} (hcond : (ms.length == 1 && m == template) = false)
    (hstep : interpolateStep d opts template data ms acc m = .ok acc2) :
    acc2 = acc ∨ ∃ s2, acc2 = .str s2 := by
  unfold interpolateStep at hstep
  cases hb : boundedMatch d m with
  | none => rw [hb] at hstep; exact .inl (by simpa using hstep.symm)
  | some tp =>
      obtain ⟨ty, pe⟩ := tp
      simp only [hb, hcond, Bool.false_eq_true, if_false] at hstep
      cases hnil : isNilJ (jsGet data (splitDefault pe).1) with
      | true =>
          simp only [hnil, if_true] at hstep
          cases hdv : (splitDefault pe).2 with
          | none =>
              simp only [hdv] at hstep
              cases ham : opts.allowMissing with
              | true => simp [ham] at hstep; exact .inr ⟨template, hstep.symm⟩
              | false => simp [ham] at hstep
          | some dv =>
              simp only [hdv] at hstep
              cases hjp : jsonParse dv with
              | none => simp [hjp] at hstep
              | some w =>
                  simp only [hjp] at hstep
                  cases htv : transformValue (some "string") w with
                  | ok sv =>
                      simp only [htv] at hstep
                      exact .inr ⟨_, by simpa using hstep.symm⟩
                  | error e => simp [htv] at hstep
      | false =>
          simp only [hnil, Bool.false_eq_true, if_false] at hstep
          cases htv : transformValue (some "string") (jsGet data (splitDefault pe).1) with
          | ok sv =>
              simp only [htv] at hstep
              exact .inr ⟨_, by simpa using hstep.symm⟩
          | error e => simp [htv] at hstep

/-- Fold invariant: away from the bounded whole-string case, any successful
interpolation fold keeps a string accumulator. -/
theorem fold_string_preserve {d : Delims} {opts : Options} {template : String}
    {data : JValue} {ms : List String} :
    ∀ (l : List String) (acc v : JValue),
      (∀ m ∈ l, (ms.length == 1 && m == template) = false) →
      (acc = .str template ∨ ∃ s2, acc = .str s2) →
      List.foldlM (interpolateStep d opts template data ms) acc l = .ok v →
      isStringB v = true
  | [], acc, v, _, hacc, h => by
      simp only [List.foldlM_nil] at h
      cases h
      rcases hacc with h2 | ⟨s2, h2⟩ <;> subst h2 <;> rfl
  | m :: l, acc, v, hcond, hacc, h => by
      rw [List.foldlM_cons] at h
      cases hstep : interpolateStep d opts template data ms acc m with
      | error e => rw [hstep] at h; exact Except.noConfusion h
      | ok acc2 =>
          rw [hstep] at h
          have h2 : List.foldlM (interpolateStep d opts template data ms) acc2 l = .ok v := h
          have hacc2 : acc2 = .str template ∨ ∃ s2, acc2 = .str s2 := by
            rcases interpStep_string_preserve (hcond m (by simp)) hstep with h3 | h3
            · rw [h3]; exact hacc
            · exact .inr h3
          exact fold_string_preserve l acc2 v (fun x hx => hcond x (by simp [hx])) hacc2 h2

/-- C3: a template string that is exactly one token spanning the whole string
compiles to the resolved value coerced per its declared type — the native
type survives, since an untagged token passes the value through — while for
any other string (multiple tokens, surrounding literal text, or no tokens)
every substituted value is string-coerced and a successful interpolation
always yields a string. -/
theorem c3_bounded_native_type_else_string :
    (∀ (s : String) (data : JValue) (opts : Options) (ty : Option String)
        (pe : String) (v : JValue),
      findAll (delimsOf opts) s = [s] →
      boundedMatch (delimsOf opts) s = some (ty, pe) →
      (splitDefault pe).2 = none →
      jsGet data (splitDefault pe).1 = v →
      isNilJ v = false →
      interpolate s data opts = transformValue ty v) ∧
    (∀ (s : String) (data : JValue) (opts : Options) (v : JValue),
      findAll (delimsOf opts) s ≠ [s] →
      interpolate s data opts = .ok v →
      isStringB v = true) := by
  constructor
  · intro s data opts ty pe v hf hb hdv hget hnil
    unfold interpolate
    simp only [hf]
    rw [List.foldlM_cons]
    have hstep : interpolateStep (delimsOf opts) opts s data [s] (.str s) s =
        transformValue ty v := by
      unfold interpolateStep
      simp only [hb, hdv, hget, hnil]
      simp
    rw [hstep]
    cases htv : transformValue ty v with
    | ok w => simp [List.foldlM_nil]
    | error e => simp
  · intro s data opts v hne hok
    unfold interpolate at hok
    exact fold_string_preserve (findAll (delimsOf opts) s) (.str s) v
      (fun m hm => bounded_cond_false hne hm) (.inl rfl) hok

/-- Witness for C3: the whole-token `'\x7b\x7bx\x7d\x7d'` preserves an array value
natively, while `'Foo \x7b\x7bx\x7d\x7d'` stringifies it. -/
theorem c3_bounded_witness :
    interpolate "\x7b\x7bx\x7d\x7d" (.obj [("x", .arr [.num 1, .num 2])]) defaultOptions =
      .ok (.arr [.num 1, .num 2]) ∧
    isStringB (.str "Foo [1,2]") = true := by
  constructor
  · exact (c3_bounded_native_type_else_string.1 "\x7b\x7bx\x7d\x7d"
      (.obj [("x", .arr [.num 1, .num 2])]) defaultOptions none "x"
      (.arr [.num 1, .num 2]) (by decide) (by decide) (by decide) (by decide)
      (by decide)).trans (by decide)
  · exact c3_bounded_native_type_else_string.2 "Foo \x7b\x7bx\x7d\x7d"
      (.obj [("x", .arr [.num 1, .num 2])]) defaultOptions (.str "Foo [1,2]")
      (by decide) (by decide)

/-- A whitespace character is not in the property class. -/
theorem ws_not_prop : ∀ c, isWsChar c = true → isPropChar c = false := by
  intro c h
  simp only [isWsChar, Bool.or_eq_true, decide_eq_true_eq] at h
  rcases h with ((((h | h) | h) | h) | h) | h <;> subst h <;> decide

/-- Captures of the greedy property matcher satisfy the property class. -/
theorem tryPropClose_all {close l : List Char} :
    ∀ (k : Nat) (p rest : List Char), k ≤ (l.takeWhile isPropChar).length →
      tryPropClose close l k = some (p, rest) → ∀ c ∈ p, isPropChar c = true
  | 0, p, rest, _, h => by exact absurd h (by simp [tryPropClose])
  | k + 1, p, rest, hk, h => by
      unfold tryPropClose at h
      cases hdp : dropPrefix close (l.drop (k + 1)) with
      | some r =>
          rw [hdp] at h
          have hp : p = l.take (k + 1) := by
            have := h
            simp at this
            exact this.1.symm
          subst hp
          intro c hc
          have hrw : l.take (k + 1) = (l.takeWhile isPropChar).take (k + 1) := by
            conv_lhs => rw [← List.takeWhile_append_dropWhile (p := isPropChar) (l := l)]
            rw [List.take_append_of_le_length hk]
          rw [hrw] at hc
          exact List.mem_takeWhile_imp (List.take_subset _ _ hc)
      | none =>
          rw [hdp] at h
          exact tryPropClose_all k p rest (Nat.le_of_succ_le hk) h

/-- Captures of the anchored property matcher satisfy the property class. -/
theorem tryPropCloseEnd_all {close l : List Char} :
    ∀ (k : Nat) (p : List Char), k ≤ (l.takeWhile isPropChar).length →
      tryPropCloseEnd close l k = some p → ∀ c ∈ p, isPropChar c = true
  | 0, p, _, h => by exact absurd h (by simp [tryPropCloseEnd])
  | k + 1, p, hk, h => by
      unfold tryPropCloseEnd at h
      cases hdp : dropPrefix close (l.drop (k + 1)) with
      | some r =>
          rw [hdp] at h
          cases r with
          | nil =>
              have hp : p = l.take (k + 1) := by simpa using h.symm
              subst hp
              intro c hc
              have hrw : l.take (k + 1) = (l.takeWhile isPropChar).take (k + 1) := by
                conv_lhs => rw [← List.takeWhile_append_dropWhile (p := isPropChar) (l := l)]
                rw [List.take_append_of_le_length hk]
              rw [hrw] at hc
              exact List.mem_takeWhile_imp (List.take_subset _ _ hc)
          | cons a r2 => exact tryPropCloseEnd_all k p (Nat.le_of_succ_le hk) h
      | none =>
          rw [hdp] at h
          exact tryPropCloseEnd_all k p (Nat.le_of_succ_le hk) h

/-- The property expression captured by the bounded regex is a run of
property-class characters (so it can hold no pipe, space or quote). -/
theorem boundedMatch_prop_all {d : Delims} {s : String} {ty : Option String}
    {pe : String} (h : boundedMatch d s = some (ty, pe)) :
    ∀ c ∈ pe.data, isPropChar c = true := by
  unfold boundedMatch at h
  cases hdp : dropPrefix d.openD s.data with
  | none => rw [hdp] at h; exact absurd h (by simp)
  | some l1 =>
      simp only [hdp] at h
      cases hts : tryTypeSplit l1 with
      | some wl =>
          obtain ⟨w, l2⟩ := wl
          simp only [hts] at h
          cases hm : matchPropCloseEnd d.closeD l2 with
          | some p =>
              simp only [hm, Option.map_some] at h
              cases h
              exact tryPropCloseEnd_all _ p (Nat.le_refl _) hm
          | none =>
              simp only [hm, Option.map_none] at h
              cases hm2 : matchPropCloseEnd d.closeD l1 with
              | some p =>
                  simp only [hm2, Option.map_some] at h
                  cases h
                  exact tryPropCloseEnd_all _ p (Nat.le_refl _) hm2
              | none => simp [hm2] at h
      | none =>
          simp only [hts] at h
          cases hm2 : matchPropCloseEnd d.closeD l1 with
          | some p =>
              simp only [hm2, Option.map_some] at h
              cases h
              exact tryPropCloseEnd_all _ p (Nat.le_refl _) hm2
          | none => simp [hm2] at h

/-- `dropWhile` is the identity when no element satisfies the predicate. -/
theorem dropWhile_eq_self_of_none {p : Char → Bool} :
    ∀ l : List Char, (∀ c ∈ l, p c = false) → l.dropWhile p = l
  | [], _ => rfl
  | c :: l, h => List.dropWhile_cons_of_neg (by simp [h c (by simp)])

/-- Trimming is the identity on whitespace-free text. -/
theorem jsTrim_eq_self {l : List Char} (h : ∀ c ∈ l, isWsChar c = false) :
    jsTrim l = l := by
  unfold jsTrim
  rw [dropWhile_eq_self_of_none l h,
    dropWhile_eq_self_of_none l.reverse (fun c hc => h c (List.mem_reverse.mp hc)),
    List.reverse_reverse]

/-- Splitting on `||` is trivial on pipe-free text. -/
theorem splitOnPipes_no_pipe : ∀ l : List Char, (∀ c ∈ l, c ≠ '|') →
    splitOnPipes l = [l]
  | [], _ => rfl
  | c :: rest, h => by
      have hc : c ≠ '|' := h c (by simp)
      have ih := splitOnPipes_no_pipe rest (fun x hx => h x (by simp [hx]))
      rw [splitOnPipes.eq_def]
      split
      · next heq => exact absurd heq (by simp)
      · next heq => exact absurd (by injection heq) hc
      · next c2 rest2 hne heq =>
          injection heq with h1 h2
          subst h1; subst h2
          rw [ih]

/-- A property-class expression splits to itself with no default clause. -/
theorem splitDefault_all_prop {pe : String} (h : ∀ c ∈ pe.data, isPropChar c = true) :
    splitDefault pe = (pe, none) := by
  unfold splitDefault
  have hnp : ∀ c ∈ pe.data, c ≠ '|' := by
    intro c hc he
    have hp := h c hc
    rw [he] at hp
    exact absurd hp (by decide)
  have hnw : ∀ c ∈ pe.data, isWsChar c = false := by
    intro c hc
    cases hw : isWsChar c with
    | false => rfl
    | true =>
        have hp := h c hc
        rw [ws_not_prop c hw] at hp
        simp at hp
  rw [splitOnPipes_no_pipe pe.data hnp]
  simp [jsTrim_eq_self hnw]

/-- Any bounded capture splits to itself with no default clause: the property
class cannot express a `||` separator. -/
theorem splitDefault_of_bounded {d : Delims} {ty : Option String} {pe m : String}
    (hb : boundedMatch d m = some (ty, pe)) : splitDefault pe = (pe, none) :=
  splitDefault_all_prop (boundedMatch_prop_all hb)

/-- The string cast never fails: a string passes through and anything else is
JSON-stringified. -/
theorem transformValue_string_total (v : JValue) :
    ∃ w, transformValue (some "string") v = .ok w := by
  unfold transformValue
  cases hs : isStringB v <;> simp [hs]

/-- Type coercion never raises MissingVariable: its only failures are
CoercionErrors. -/
theorem transformValue_no_missing {ty : Option String} {v : JValue}
    {e : TemplateError} (h : transformValue ty v = .error e) :
    isMissingVar e = false := by
  unfold transformValue at h
  split at h
  · cases hp : jsParseFloat (jsToString v) with
    | some q => rw [hp] at h; exact Except.noConfusion h
    | none => rw [hp] at h; injection h with h2; subst h2; rfl
  · cases ho : isPlainObjB v with
    | true => simp [ho] at h
    | false =>
        simp only [ho, Bool.false_eq_true, if_false] at h
        cases hj : jsonParse (jsToString v) with
        | some w => rw [hj] at h; exact Except.noConfusion h
        | none => rw [hj] at h; injection h with h2; subst h2; rfl
  · cases hs : isStringB v <;> simp [hs] at h
  · exact Except.noConfusion h

/-- A step that fails with MissingVariable names the bounded capture of a
token whose path looks up nil, and only runs with `allowMissing` unset. -/
theorem interpStep_missing {d : Delims} {opts : Options} {template : String}
    {data : JValue} {ms : List String} {acc : JValue} {m : String} {e : String}
    (h : interpolateStep d opts template data ms acc m =
      .error (.missingVariable e)) :
    ∃ ty, boundedMatch d m = some (ty, e) ∧ isNilJ (jsGet data e) = true ∧
      opts.allowMissing = false := by
  unfold interpolateStep at h
  cases hb : boundedMatch d m with
  | none => rw [hb] at h; exact Except.noConfusion h
  | some tp =>
      obtain ⟨ty, pe⟩ := tp
      have hsd := splitDefault_of_bounded hb
      have hd1 : (splitDefault pe).1 = pe := by rw [hsd]
      have hd2 : (splitDefault pe).2 = none := by rw [hsd]
      simp only [hb, hd1, hd2] at h
      cases hnil : isNilJ (jsGet data pe) with
      | true =>
          simp only [hnil, if_true] at h
          cases ham : opts.allowMissing with
          | true => simp [ham] at h
          | false =>
              simp only [ham, Bool.false_eq_true, if_false] at h
              injection h with h2
              injection h2 with h3
              subst h3
              exact ⟨ty, rfl, hnil, rfl⟩
      | false =>
          simp only [hnil, Bool.false_eq_true, if_false] at h
          cases hcond : (ms.length == 1 && m == template) with
          | true =>
              simp only [hcond, if_true] at h
              have hk := transformValue_no_missing h
              simp [isMissingVar] at hk
          | false =>
              simp only [hcond, Bool.false_eq_true, if_false] at h
              cases htv : transformValue (some "string") (jsGet data pe) with
              | ok sv => simp [htv] at h
              | error e2 =>
                  simp only [htv] at h
                  injection h with h2
                  rw [h2] at htv
                  have hk := transformValue_no_missing htv
                  simp [isMissingVar] at hk

/-- A step on a non-missing token away from the bounded whole-string case
always succeeds: the string cast is total and the default branch is
unreachable. -/
theorem interpStep_clean_ok {d : Delims} {opts : Options} {template : String}
    {data : JValue} {ms : List String} {acc : JValue} {m : String}
    (hmiss : tokenMissing data d m = false)
    (hcond : (ms.length == 1 && m == template) = false) :
    ∃ acc2, interpolateStep d opts template data ms acc m = .ok acc2 := by
  unfold interpolateStep
  cases hb : boundedMatch d m with
  | none => exact ⟨acc, by simp [hb]⟩
  | some tp =>
      obtain ⟨ty, pe⟩ := tp
      have hsd := splitDefault_of_bounded hb
      have hd1 : (splitDefault pe).1 = pe := by rw [hsd]
      have hd2 : (splitDefault pe).2 = none := by rw [hsd]
      have hnil : isNilJ (jsGet data pe) = false := by
        unfold tokenMissing at hmiss
        rw [hb] at hmiss
        simp only [hd1, hd2, Option.isNone_none, Bool.and_true] at hmiss
        exact hmiss
      obtain ⟨w, hw⟩ := transformValue_string_total (jsGet data pe)
      refine ⟨.str (replaceFirst (asAccString acc) m (asAccString w)), ?_⟩
      simp only [hb, hd1, hd2, hnil, Bool.false_eq_true, if_false, hcond, hw]

/-- Soundness for the interpolation fold: a MissingVariable failure names a
token of the list whose path looks up nil with no default, with
`allowMissing` unset. -/
theorem fold_missing_sound {d : Delims} {opts : Options} {template : String}
    {data : JValue} {ms : List String} :
    ∀ (l : List String) (acc : JValue) (e : String),
      List.foldlM (interpolateStep d opts template data ms) acc l =
        .error (.missingVariable e) →
      ∃ m ∈ l, ∃ ty, boundedMatch d m = some (ty, e) ∧
        isNilJ (jsGet data e) = true ∧ opts.allowMissing = false
  | [], acc, e, h => by
      rw [List.foldlM_nil] at h
      exact Except.noConfusion h
  | m :: l, acc, e, h => by
      rw [List.foldlM_cons] at h
      cases hstep : interpolateStep d opts template data ms acc m with
      | error e0 =>
          rw [hstep] at h
          have h3 : (Except.error e0 : Except TemplateError JValue) =
              .error (.missingVariable e) := h
          injection h3 with h2
          subst h2
          obtain ⟨ty, hbm, hnil, ham⟩ := interpStep_missing hstep
          exact ⟨m, by simp, ty, hbm, hnil, ham⟩
      | ok acc2 =>
          rw [hstep] at h
          have h2 : List.foldlM (interpolateStep d opts template data ms) acc2 l =
              .error (.missingVariable e) := h
          obtain ⟨m2, hmem, rest⟩ := fold_missing_sound l acc2 e h2
          exact ⟨m2, by simp [hmem], rest⟩

/-- Completeness for the interpolation fold: with `allowMissing` unset, if
some token of the list is missing and no non-missing token takes the bounded
whole-string branch, the fold fails with a MissingVariable error. -/
theorem fold_missing_complete {d : Delims} {opts : Options} {template : String}
    {data : JValue} {ms : List String} (ham : opts.allowMissing = false) :
    ∀ (l : List String) (acc : JValue),
      (∀ m ∈ l, tokenMissing data d m = false →
        (ms.length == 1 && m == template) = false) →
      (∃ m ∈ l, tokenMissing data d m = true) →
      ∃ e, List.foldlM (interpolateStep d opts template data ms) acc l =
        .error (.missingVariable e)
  | [], acc, _, hex => by simp at hex
  | m :: l, acc, hcond, hex => by
      cases hm : tokenMissing data d m with
      | true =>
          cases hb : boundedMatch d m with
          | none => unfold tokenMissing at hm; rw [hb] at hm; exact absurd hm (by simp)
          | some tp =>
              obtain ⟨ty, pe⟩ := tp
              have hsd := splitDefault_of_bounded hb
              have hd1 : (splitDefault pe).1 = pe := by rw [hsd]
              have hd2 : (splitDefault pe).2 = none := by rw [hsd]
              have hnil : isNilJ (jsGet data pe) = true := by
                unfold tokenMissing at hm
                rw [hb] at hm
                simp only [hd1, hd2, Option.isNone_none, Bool.and_true] at hm
                exact hm
              refine ⟨pe, ?_⟩
              rw [List.foldlM_cons]
              have hstep : interpolateStep d opts template data ms acc m =
                  .error (.missingVariable pe) := by
                unfold interpolateStep
                simp only [hb, hd1, hd2, hnil, if_true, ham, Bool.false_eq_true,
                  if_false]
              rw [hstep]
              rfl
      | false =>
          have hcondm := hcond m (by simp) hm
          obtain ⟨acc2, hstep⟩ := interpStep_clean_ok hm hcondm
          have hex2 : ∃ m2 ∈ l, tokenMissing data d m2 = true := by
            rcases hex with ⟨m2, hm2mem, hm2⟩
            rcases List.mem_cons.mp hm2mem with he | hmem
            · subst he; rw [hm] at hm2; exact absurd hm2 (by simp)
            · exact ⟨m2, hmem, hm2⟩
          obtain ⟨e, hrec⟩ := fold_missing_complete ham l acc2
            (fun x hx => hcond x (by simp [hx])) hex2
          refine ⟨e, ?_⟩
          rw [List.foldlM_cons, hstep]
          exact hrec

/-- C5 (amended to the string-interpolation level): with `allowMissing`
unset, interpolating a template string fails with MissingVariable iff some
matched token resolves to `undefined`/`null` with no default clause; the
error carries the full captured token expression of such a token; and
`0`, `false` and the empty string never count as missing while `null` and
`undefined` do. -/
theorem c5_missing_variable_iff :
    (∀ (s : String) (data : JValue) (opts : Options),
      opts.allowMissing = false →
      ((∃ e, interpolate s data opts = .error (.missingVariable e)) ↔
        ∃ m ∈ findAll (delimsOf opts) s,
          tokenMissing data (delimsOf opts) m = true)) ∧
    (∀ (s : String) (data : JValue) (opts : Options) (e : String),
      interpolate s data opts = .error (.missingVariable e) →
      ∃ m ∈ findAll (delimsOf opts) s, ∃ ty,
        boundedMatch (delimsOf opts) m = some (ty, e) ∧
        isNilJ (jsGet data e) = true ∧ opts.allowMissing = false) ∧
    (isNilJ (.num 0) = false ∧ isNilJ (.bool false) = false ∧
      isNilJ (.str "") = false ∧ isNilJ .null = true ∧ isNilJ .undef = true) := by
  have hsound : ∀ (s : String) (data : JValue) (opts : Options) (e : String),
      interpolate s data opts = .error (.missingVariable e) →
      ∃ m ∈ findAll (delimsOf opts) s, ∃ ty,
        boundedMatch (delimsOf opts) m = some (ty, e) ∧
        isNilJ (jsGet data e) = true ∧ opts.allowMissing = false := by
    intro s data opts e h
    have h2 : List.foldlM
        (interpolateStep (delimsOf opts) opts s data (findAll (delimsOf opts) s))
        (.str s) (findAll (delimsOf opts) s) = .error (.missingVariable e) := h
    exact fold_missing_sound (findAll (delimsOf opts) s) (.str s) e h2
  refine ⟨?_, hsound, by decide⟩
  intro s data opts ham
  constructor
  · rintro ⟨e, h⟩
    obtain ⟨m, hmem, ty, hbm, hnil, _⟩ := hsound s data opts e h
    refine ⟨m, hmem, ?_⟩
    have hsd := splitDefault_of_bounded hbm
    have hd1 : (splitDefault e).1 = e := by rw [hsd]
    have hd2 : (splitDefault e).2 = none := by rw [hsd]
    unfold tokenMissing
    rw [hbm]
    simp only [hd1, hd2, Option.isNone_none, Bool.and_true]
    exact hnil
  · rintro ⟨m, hmem, hm⟩
    have hcond : ∀ m2 ∈ findAll (delimsOf opts) s,
        tokenMissing data (delimsOf opts) m2 = false →
        ((findAll (delimsOf opts) s).length == 1 && m2 == s) = false := by
      intro m2 hmem2 hmiss2
      by_cases hms : findAll (delimsOf opts) s = [s]
      · rw [hms] at hmem2 hmem
        have hm2s : m2 = m := by
          have h1 : m2 = s := by simpa using hmem2
          have h2 : m = s := by simpa using hmem
          rw [h1, h2]
        rw [hm2s, hm] at hmiss2
        exact absurd hmiss2 (by simp)
      · exact bounded_cond_false hms hmem2
    obtain ⟨e, hfold⟩ := fold_missing_complete ham (findAll (delimsOf opts) s)
      (.str s) hcond ⟨m, hmem, hm⟩
    exact ⟨e, hfold⟩

/-- C5 counterexample at the tree level: `compile` over an object can fail
with a CoercionError from an earlier string leaf even though a later leaf's
token resolves to a missing value with no default and `allowMissing` unset,
so the claimed iff is false for the public tree-walking compile. -/
theorem c5_tree_preemption_counterexample :
    compile (.obj [("u", .str "\x7b\x7bnumber:a\x7d\x7d"), ("v", .str "\x7b\x7bb\x7d\x7d")])
        (.obj [("a", .str "z")]) defaultOptions =
      .error (.coercionError "z" "number") ∧
    tokenMissing (.obj [("a", .str "z")]) defaultDelims "\x7b\x7bb\x7d\x7d" = true ∧
    "\x7b\x7bb\x7d\x7d" ∈ findAll defaultDelims "\x7b\x7bb\x7d\x7d" ∧
    defaultOptions.allowMissing = false := by
  exact ⟨by decide, by decide, by decide, rfl⟩

/-- Witness for C5: `'\x7b\x7bx\x7d\x7d'` against empty data fails with
MissingVariable carrying `'x'`. -/
theorem c5_missing_witness :
    (∃ e, interpolate "\x7b\x7bx\x7d\x7d" (.obj []) defaultOptions =
      .error (.missingVariable e)) ∧
    interpolate "\x7b\x7bx\x7d\x7d" (.obj []) defaultOptions =
      .error (.missingVariable "x") := by
  constructor
  · exact (c5_missing_variable_iff.1 "\x7b\x7bx\x7d\x7d" (.obj [])
      defaultOptions rfl).mpr ⟨"\x7b\x7bx\x7d\x7d", by decide, by decide⟩
  · decide

/-- With `allowMissing` set, a step on a missing token resets the accumulator
to the whole template string, whatever the accumulator held. -/
theorem interpStep_am_missing {d : Delims} {opts : Options} {template : String}
    {data : JValue} {ms : List String} {acc : JValue} {m : String}
    (ham : opts.allowMissing = true) (hm : tokenMissing data d m = true) :
    interpolateStep d opts template data ms acc m = .ok (.str template) := by
  cases hb : boundedMatch d m with
  | none =>
      unfold tokenMissing at hm
      rw [hb] at hm
      exact absurd hm (by simp)
  | some tp =>
      obtain ⟨ty, pe⟩ := tp
      have hsd := splitDefault_of_bounded hb
      have hd1 : (splitDefault pe).1 = pe := by rw [hsd]
      have hd2 : (splitDefault pe).2 = none := by rw [hsd]
      have hnil : isNilJ (jsGet data pe) = true := by
        unfold tokenMissing at hm
        rw [hb] at hm
        simp only [hd1, hd2, Option.isNone_none, Bool.and_true] at hm
        exact hm
      unfold interpolateStep
      simp only [hb, hd1, hd2, hnil, if_true, ham]

/-- With `allowMissing` set and away from the bounded whole-string case,
every step succeeds. -/
theorem interpStep_am_total {d : Delims} {opts : Options} {template : String}
    {data : JValue} {ms : List String} {acc : JValue} {m : String}
    (ham : opts.allowMissing = true)
    (hcond : (ms.length == 1 && m == template) = false) :
    ∃ acc2, interpolateStep d opts template data ms acc m = .ok acc2 := by
  cases hm : tokenMissing data d m with
  | true => exact ⟨.str template, interpStep_am_missing ham hm⟩
  | false => exact interpStep_clean_ok hm hcond

/-- With `allowMissing` set, a fold whose last token is missing ends on the
whole template string, no matter what the earlier substitutions produced. -/
theorem fold_last_missing {d : Delims} {opts : Options} {template : String}
    {data : JValue} {ms : List String} (ham : opts.allowMissing = true) :
    ∀ (l : List String) (m : String) (acc : JValue),
      (∀ x ∈ l, (ms.length == 1 && x == template) = false) →
      tokenMissing data d m = true →
      List.foldlM (interpolateStep d opts template data ms) acc (l ++ [m]) =
        .ok (.str template)
  | [], m, acc, _, hm => by
      rw [List.nil_append, List.foldlM_cons, interpStep_am_missing ham hm]
      rfl
  | x :: l, m, acc, hcond, hm => by
      rw [List.cons_append, List.foldlM_cons]
      obtain ⟨acc2, hstep⟩ := interpStep_am_total ham (hcond x (by simp))
      rw [hstep]
      exact fold_last_missing ham l m acc2 (fun y hy => hcond y (by simp [hy])) hm

/-- Interpolating one character never sees the `allowMissing` flag: the
recursion forwards only the delimiters. -/
theorem compileChars_am : ∀ (cs : List Char) (i : Nat) (data : JValue)
    (dl : Option (String × String)) (b : Bool),
    compileChars cs i data (Options.mk dl b) =
      compileChars cs i data (Options.mk dl false)
  | [], _, _, _, _ => rfl
  | c :: rest, i, data, dl, b => by
      unfold compileChars
      rw [compileChars_am rest (i + 1) data dl b]

mutual

/-- The public `compile` ignores `allowMissing` entirely: it rebuilds the
options with only `delimiters` before every interpolation. -/
theorem compile_am : ∀ (t data : JValue) (dl : Option (String × String)) (b : Bool),
    compile t data (Options.mk dl b) = compile t data (Options.mk dl false)
  | .obj fs, data, dl, b => by
      simp only [compile]
      rw [compileFields_am fs data dl b]
  | .str s, data, dl, b => by
      simp only [compile]
      rw [compileChars_am s.data 0 data dl b]
  | .arr xs, data, dl, b => by
      simp only [compile]
      rw [compileIndexed_am xs 0 data dl b]
  | .undef, _, _, _ => rfl
  | .null, _, _, _ => rfl
  | .bool _, _, _, _ => rfl
  | .num _, _, _, _ => rfl

/-- Field recursion of `compile_am`. -/
theorem compileFields_am : ∀ (fs : List (String × JValue)) (data : JValue)
    (dl : Option (String × String)) (b : Bool),
    compileFields fs data (Options.mk dl b) =
      compileFields fs data (Options.mk dl false)
  | [], _, _, _ => rfl
  | (k, v) :: rest, data, dl, b => by
      unfold compileFields
      rw [compileValue_am v data dl b, compileFields_am rest data dl b]

/-- Index recursion of `compile_am`. -/
theorem compileIndexed_am : ∀ (xs : List JValue) (i : Nat) (data : JValue)
    (dl : Option (String × String)) (b : Bool),
    compileIndexed xs i data (Options.mk dl b) =
      compileIndexed xs i data (Options.mk dl false)
  | [], _, _, _, _ => rfl
  | x :: rest, i, data, dl, b => by
      unfold compileIndexed
      rw [compileValue_am x data dl b, compileIndexed_am rest (i + 1) data dl b]

/-- Value dispatch of `compile_am`. -/
theorem compileValue_am : ∀ (v data : JValue) (dl : Option (String × String)) (b : Bool),
    compileValue v data (Options.mk dl b) = compileValue v data (Options.mk dl false)
  | .obj fs, data, dl, b => by
      simp only [compileValue]
      rw [compileFields_am fs data dl b]
  | .str s, data, dl, b => by
      simp only [compileValue]
  | .arr xs, data, dl, b => by
      simp only [compileValue]
      rw [compileList_am xs data dl b]
  | .undef, _, _, _ => rfl
  | .null, _, _, _ => rfl
  | .bool _, _, _, _ => rfl
  | .num _, _, _, _ => rfl

/-- Element recursion of `compile_am`. -/
theorem compileList_am : ∀ (xs : List JValue) (data : JValue)
    (dl : Option (String × String)) (b : Bool),
    compileList xs data (Options.mk dl b) = compileList xs data (Options.mk dl false)
  | [], _, _, _ => rfl
  | x :: rest, data, dl, b => by
      unfold compileList
      rw [compile_am x data dl b, compileList_am rest data dl b]

end

/-- C2 (amended): the public `compile` drops `allowMissing` — its result never
depends on the flag, so the claimed whole-string pass-through is unreachable
from the public entry point.  At the string-interpolation level where the
flag is honoured: MissingVariable is never raised, and when the LAST matched
token is the missing one the whole template string is returned verbatim —
but an earlier missing token only resets the accumulator, so later tokens
still substitute into it (partial substitution). -/
theorem c2_allow_missing :
    (∀ (t data : JValue) (dl : Option (String × String)) (b : Bool),
      compile t data (Options.mk dl b) = compile t data (Options.mk dl false)) ∧
    (∀ (s : String) (data : JValue) (dl : Option (String × String))
        (e : TemplateError),
      interpolate s data (Options.mk dl true) = .error e →
      isMissingVar e = false) ∧
    (∀ (s : String) (data : JValue) (opts : Options) (l : List String)
        (m : String),
      opts.allowMissing = true →
      findAll (delimsOf opts) s = l ++ [m] →
      tokenMissing data (delimsOf opts) m = true →
      interpolate s data opts = .ok (.str s)) := by
  refine ⟨fun t data dl b => compile_am t data dl b, ?_, ?_⟩
  · intro s data dl e h
    cases he : isMissingVar e with
    | false => rfl
    | true =>
        cases e with
        | missingVariable pe =>
            have h2 : List.foldlM
                (interpolateStep (delimsOf (Options.mk dl true)) (Options.mk dl true)
                  s data (findAll (delimsOf (Options.mk dl true)) s))
                (.str s) (findAll (delimsOf (Options.mk dl true)) s) =
                .error (.missingVariable pe) := h
            obtain ⟨m, _, ty, _, _, hfalse⟩ :=
              fold_missing_sound (findAll (delimsOf (Options.mk dl true)) s)
                (.str s) pe h2
            exact Bool.noConfusion hfalse
        | coercionError a b => exact Bool.noConfusion he
        | noMatchError a => exact Bool.noConfusion he
  · intro s data opts l m ham hms hm
    have hcond : ∀ x ∈ l, ((l ++ [m]).length == 1 && x == s) = false := by
      intro x hx
      cases l with
      | nil => simp at hx
      | cons a l2 =>
          have hlen : ((a :: l2 ++ [m]).length == 1) = false := by
            simp [List.length_append]
          rw [hlen]
          rfl
    have hgoal : List.foldlM
        (interpolateStep (delimsOf opts) opts s data (l ++ [m]))
        (.str s) (l ++ [m]) = .ok (.str s) :=
      fold_last_missing ham l m (.str s) hcond hm
    unfold interpolate
    simp only [hms]
    exact hgoal

/-- C2 counterexample: with `allowMissing: true` the public `compile` still
fails with MissingVariable (the option is never forwarded), and even
`string.interpolate` with the flag honoured substitutes later tokens into
the reset accumulator, returning a partially substituted string instead of
the whole template unchanged. -/
theorem c2_allow_missing_counterexample :
    compile (.obj [("a", .str "\x7b\x7bx\x7d\x7d")]) (.obj [])
        (Options.mk none true) = .error (.missingVariable "x") ∧
    interpolate "Foo \x7b\x7bx\x7d\x7d \x7b\x7by\x7d\x7d" (.obj [("y", .num 5)])
        (Options.mk none true) = .ok (.str "Foo \x7b\x7bx\x7d\x7d 5") := by
  exact ⟨by decide, by decide⟩

/-- Witness for C2: `compile` on a token-free string leaf gives the same
result with the flag set and unset, and a single missing token with
`allowMissing` honoured passes the whole string through. -/
theorem c2_allow_missing_witness :
    compile (.str "ab") (.obj []) (Options.mk none true) =
      compile (.str "ab") (.obj []) (Options.mk none false) ∧
    interpolate "\x7b\x7bx\x7d\x7d" (.obj []) (Options.mk none true) =
      .ok (.str "\x7b\x7bx\x7d\x7d") ∧
    isMissingVar (.coercionError "z" "number") = false := by
  refine ⟨c2_allow_missing.1 (.str "ab") (.obj []) none true, ?_, ?_⟩
  · exact c2_allow_missing.2.2 "\x7b\x7bx\x7d\x7d" (.obj [])
      (Options.mk none true) [] "\x7b\x7bx\x7d\x7d" rfl (by decide) (by decide)
  · exact c2_allow_missing.2.1 "\x7b\x7bnumber:a\x7d\x7d" (.obj [("a", .str "z")])
      none (.coercionError "z" "number") (by decide)

/-- The default options build the default delimiters. -/
theorem delimsOf_default : delimsOf defaultOptions = defaultDelims := rfl

/-- What a whole-token leaf certificate certifies. -/
theorem wholeTokenLeaf_spec {s pe : String} (hw : wholeTokenLeaf s = some pe) :
    boundedMatch defaultDelims s = some (none, pe) ∧
    findAll defaultDelims s = [s] ∧ splitDefault pe = (pe, none) := by
  unfold wholeTokenLeaf at hw
  cases hb : boundedMatch defaultDelims s with
  | none => rw [hb] at hw; exact Option.noConfusion hw
  | some tp =>
      obtain ⟨ty, pe2⟩ := tp
      rw [hb] at hw
      cases ty with
      | some w => exact Option.noConfusion hw
      | none =>
          have hw2 : (if findAll defaultDelims s = [s] ∧
              splitDefault pe2 = (pe2, none) then some pe2 else none) = some pe := hw
          by_cases hc : findAll defaultDelims s = [s] ∧ splitDefault pe2 = (pe2, none)
          · rw [if_pos hc] at hw2
            injection hw2 with hpe
            subst hpe
            exact ⟨rfl, hc.1, hc.2⟩
          · rw [if_neg hc] at hw2
            exact Option.noConfusion hw2

/-- Interpolating a whole-token leaf returns the value at the token's path
unchanged whenever that value is present. -/
theorem interp_whole_token {s pe : String} {D : JValue}
    (hw : wholeTokenLeaf s = some pe) (hnil : isNilJ (jsGet D pe) = false) :
    interpolate s D defaultOptions = .ok (jsGet D pe) := by
  obtain ⟨hb, hf, hsd⟩ := wholeTokenLeaf_spec hw
  have hd1 : (splitDefault pe).1 = pe := by rw [hsd]
  have hd2 : (splitDefault pe).2 = none := by rw [hsd]
  show List.foldlM
      (interpolateStep defaultDelims defaultOptions s D (findAll defaultDelims s))
      (.str s) (findAll defaultDelims s) = .ok (jsGet D pe)
  rw [hf, List.foldlM_cons]
  have hstep : interpolateStep defaultDelims defaultOptions s D [s] (.str s) s =
      .ok (jsGet D pe) := by
    unfold interpolateStep
    simp only [hb, hd1, hd2, hnil, Bool.false_eq_true, if_false]
    simp [transformValue]
  rw [hstep]
  rfl

/-- Interpolating a token-free leaf returns it unchanged. -/
theorem interp_token_free {s : String} (D : JValue) (hf : tokenFreeB s = true) :
    interpolate s D defaultOptions = .ok (.str s) := by
  have hfa : findAll defaultDelims s = [] := by
    simp only [tokenFreeB, Bool.and_eq_true, beq_iff_eq] at hf
    exact hf.1
  show List.foldlM
      (interpolateStep defaultDelims defaultOptions s D (findAll defaultDelims s))
      (.str s) (findAll defaultDelims s) = .ok (.str s)
  rw [hfa]
  rfl

/-- Deinterpolating a whole-token leaf sets the untyped result along the
token's path in a fresh object. -/
theorem deint_whole_token {s pe : String} (v : JValue)
    (hw : wholeTokenLeaf s = some pe) :
    deinterpolate s v defaultOptions = .ok (jsSet (.obj []) pe v) := by
  obtain ⟨hb, _, hsd⟩ := wholeTokenLeaf_spec hw
  have hd1 : (splitDefault pe).1 = pe := by rw [hsd]
  have hd2 : (splitDefault pe).2 = none := by rw [hsd]
  unfold deinterpolate
  rw [delimsOf_default]
  simp only [hb, hd1, hd2]
  rfl

/-- Stepping a pair with no expression side keeps the accumulator, so a
capture list zipped against no expressions contributes nothing. -/
theorem deintFold_none (d : Delims) : ∀ (ys : List String) (acc : JValue),
    List.foldlM (deintStep d) acc
      (ys.map fun y => ((none : Option String), some y)) = .ok acc
  | [], acc => rfl
  | y :: ys, acc => by
      rw [List.map_cons, List.foldlM_cons]
      exact deintFold_none d ys acc

/-- Deinterpolating a token-free leaf contributes the empty fragment. -/
theorem deint_token_free {s : String} (v : JValue) (hf : tokenFreeB s = true) :
    deinterpolate s v defaultOptions = .ok (.obj []) := by
  have hsplit : (findAll defaultDelims s = [] ∧
      (boundedMatch defaultDelims s).isNone = true) := by
    simpa only [tokenFreeB, Bool.and_eq_true, beq_iff_eq] using hf
  have hb : boundedMatch defaultDelims s = none :=
    Option.isNone_iff_eq_none.mp hsplit.2
  unfold deinterpolate
  rw [delimsOf_default]
  simp only [hb, hsplit.1]
  cases hexec : execSkeleton (skeletonOf defaultDelims s) (jsToString v).data with
  | some caps => simp only [hexec]; exact deintFold_none defaultDelims caps (.obj [])
  | none => simp only [hexec]; exact deintFold_none defaultDelims [] (.obj [])

/-- Looking up a key of a unique-keyed field list in its compiled image finds
that field's compiled value. -/
theorem lookup_compiledFields (D : JValue) : ∀ (fs : List (String × JValue))
    (kv : String × JValue), keysUniqueB fs = true → kv ∈ fs →
    lookupField (compiledFields D fs) kv.1 = some (compiledV D kv.2)
  | [], kv, _, hmem => absurd hmem (by simp)
  | (k1, v1) :: rest, kv, hu, hmem => by
      obtain ⟨k, v⟩ := kv
      have hu2 : (rest.any fun kv2 => kv2.1 == k1) = false ∧ keysUniqueB rest = true := by
        simpa only [keysUniqueB, Bool.and_eq_true, Bool.not_eq_true,
          Bool.not_eq_true'] using hu
      unfold compiledFields lookupField
      by_cases hk : k1 = k
      · subst hk
        rw [if_pos rfl]
        rcases List.mem_cons.mp hmem with he | hmem2
        · injection he with _ hv
          rw [hv]
        · exfalso
          have hany : (rest.any fun kv2 => kv2.1 == k1) = true :=
            List.any_eq_true.mpr ⟨(k1, v), hmem2, by simp⟩
          rw [hany] at hu2
          exact Bool.noConfusion hu2.1
      · rw [if_neg hk]
        rcases List.mem_cons.mp hmem with he | hmem2
        · injection he with hk1 _
          exact absurd hk1.symm hk
        · exact lookup_compiledFields D rest (k, v) hu2.2 hmem2

/-- `_.get` with a literally present key reads that field. -/
theorem jsGet_obj_lookup {gs : List (String × JValue)} {k : String} {w : JValue}
    (h : lookupField gs k = some w) : jsGet (.obj gs) k = w := by
  simp only [jsGet, h]

/-- Every field of a unique-keyed template reads back its own compiled value
from the compiled object. -/
theorem jsGet_compiled_obj (D : JValue) {fs : List (String × JValue)}
    (hu : keysUniqueB fs = true) :
    ∀ kv ∈ fs, jsGet (.obj (compiledFields D fs)) kv.1 = compiledV D kv.2 :=
  fun kv hkv => jsGet_obj_lookup (lookup_compiledFields D fs kv hu hkv)

mutual

/-- A sane template value whose referenced paths are present compiles to its
`compiledV` image. -/
theorem compileValue_sane (D : JValue) : ∀ (v : JValue), saneV v = true →
    refsOKv D v = true → compileValue v D defaultOptions = .ok (compiledV D v)
  | .str s, hs, hr => by
      show interpolate s D defaultOptions = .ok (compiledV D (.str s))
      cases hw : wholeTokenLeaf s with
      | some pe =>
          have hnil : isNilJ (jsGet D pe) = false := by
            have hr2 : (match wholeTokenLeaf s with
              | some pe => !isNilJ (jsGet D pe)
              | none => true) = true := hr
            rw [hw] at hr2
            simpa using hr2
          rw [interp_whole_token hw hnil]
          simp only [compiledV, hw]
      | none =>
          have hfree : tokenFreeB s = true := by
            have hs2 : (tokenFreeB s || (wholeTokenLeaf s).isSome) = true := hs
            rw [hw] at hs2
            simpa using hs2
          rw [interp_token_free D hfree]
          simp only [compiledV, hw]
  | .obj fs, hs, hr => by
      have hs2 : keysUniqueB fs = true ∧ saneFields fs = true := by
        simpa only [saneV, Bool.and_eq_true] using hs
      show (match compileFields fs D defaultOptions with
        | .ok gs => Except.ok (JValue.obj gs)
        | .error e => .error e) = .ok (compiledV D (.obj fs))
      rw [compileFields_sane D fs hs2.2 hr]
      simp only [compiledV]
  | .arr xs, hs, hr => by
      show (match compileList xs D defaultOptions with
        | .ok cxs => Except.ok (JValue.arr cxs)
        | .error e => .error e) = .ok (compiledV D (.arr xs))
      rw [compileList_sane D xs hs hr]
      simp only [compiledV]
  | .null, _, _ => rfl
  | .bool b, _, _ => rfl
  | .num q, _, _ => rfl
  | .undef, hs, _ => Bool.noConfusion hs

/-- Field recursion of `compileValue_sane`. -/
theorem compileFields_sane (D : JValue) : ∀ (fs : List (String × JValue)),
    saneFields fs = true → refsOKfields D fs = true →
    compileFields fs D defaultOptions = .ok (compiledFields D fs)
  | [], _, _ => rfl
  | (k, v) :: rest, hs, hr => by
      have hs2 : saneV v = true ∧ saneFields rest = true := by
        simpa only [saneFields, Bool.and_eq_true] using hs
      have hr2 : refsOKv D v = true ∧ refsOKfields D rest = true := by
        simpa only [refsOKfields, Bool.and_eq_true] using hr
      unfold compileFields
      rw [compileValue_sane D v hs2.1 hr2.1, compileFields_sane D rest hs2.2 hr2.2]
      rfl

/-- Element recursion of `compileValue_sane`: each element is a sane object
and goes through the public `compile` re-entry. -/
theorem compileList_sane (D : JValue) : ∀ (xs : List JValue),
    saneElems xs = true → refsOKelems D xs = true →
    compileList xs D defaultOptions = .ok (compiledElems D xs)
  | [], _, _ => rfl
  | .obj fs :: rest, hs, hr => by
      have hs2 : (keysUniqueB fs && saneFields fs) = true ∧ saneElems rest = true := by
        simpa only [saneElems, saneV, Bool.and_eq_true] using hs
      have hsf : saneFields fs = true := by
        have h3 := hs2.1
        simp only [Bool.and_eq_true] at h3
        exact h3.2
      have hr2 : refsOKv D (.obj fs) = true ∧ refsOKelems D rest = true := by
        simpa only [refsOKelems, Bool.and_eq_true] using hr
      unfold compileList
      have hcomp : compile (.obj fs) D defaultOptions =
          .ok (.obj (compiledFields D fs)) := by
        show (match compileFields fs D defaultOptions with
          | .ok gs => Except.ok (JValue.obj gs)
          | .error e => .error e) = _
        rw [compileFields_sane D fs hsf hr2.1]
      rw [hcomp, compileList_sane D rest hs2.2 hr2.2]
      rfl
  | .undef :: rest, hs, _ => by simp [saneElems] at hs
  | .null :: rest, hs, _ => by simp [saneElems] at hs
  | .bool b :: rest, hs, _ => by simp [saneElems] at hs
  | .num q :: rest, hs, _ => by simp [saneElems] at hs
  | .str s :: rest, hs, _ => by simp [saneElems] at hs
  | .arr ys :: rest, hs, _ => by simp [saneElems] at hs

end

/-- Rebuilding the options with the default delimiters and a cleared flag
gives the default options back. -/
theorem options_rebuild_default :
    Options.mk defaultOptions.delimiters false = defaultOptions := rfl

mutual

/-- Decompiling sane fields against any result that reads back each field's
compiled value reconstructs exactly the rebuilt fragments. -/
theorem decompFields_sane (D : JValue) : ∀ (fs : List (String × JValue))
    (R acc : JValue), saneFields fs = true →
    (∀ kv ∈ fs, jsGet R kv.1 = compiledV D kv.2) →
    decompFields fs R defaultOptions acc = .ok (rebuildFields D fs acc)
  | [], R, acc, _, _ => rfl
  | (k, v) :: rest, R, acc, hs, hget => by
      have hs2 : saneV v = true ∧ saneFields rest = true := by
        simpa only [saneFields, Bool.and_eq_true] using hs
      unfold decompFields
      rw [decompStep_sane D k v R acc hs2.1 (hget (k, v) (by simp))]
      exact decompFields_sane D rest R _ hs2.2 fun kv hkv => hget kv (by simp [hkv])

/-- One decompile reduce step on a sane template value whose looked-up result
is its compiled image contributes that value's rebuilt fragment. -/
theorem decompStep_sane (D : JValue) : ∀ (k : String) (v : JValue)
    (R acc : JValue), saneV v = true → jsGet R k = compiledV D v →
    decompStep k v R defaultOptions acc = .ok (rebuildStep D v acc)
  | k, .obj fs, R, acc, hs, hget => by
      have hs2 : keysUniqueB fs = true ∧ saneFields fs = true := by
        simpa only [saneV, Bool.and_eq_true] using hs
      unfold decompStep
      simp only [hget, compiledV]
      rw [decompFields_sane D fs (.obj (compiledFields D fs)) (.obj []) hs2.2
        (jsGet_compiled_obj D hs2.1)]
      rfl
  | k, .str s, R, acc, hs, hget => by
      unfold decompStep
      simp only [hget, compiledV]
      rw [options_rebuild_default]
      cases hw : wholeTokenLeaf s with
      | some pe =>
          have hd : deinterpolate s (jsGet D pe) defaultOptions =
              .ok (jsSet (.obj []) pe (jsGet D pe)) := deint_whole_token _ hw
          simp only [hw]
          rw [hd]
          simp only [rebuildStep, hw]
      | none =>
          have hfree : tokenFreeB s = true := by
            have hs3 : (tokenFreeB s || (wholeTokenLeaf s).isSome) = true := hs
            rw [hw] at hs3
            simpa using hs3
          simp only [hw]
          rw [deint_token_free (.str s) hfree]
          simp only [rebuildStep, hw]
  | k, .arr txs, R, acc, hs, hget => by
      unfold decompStep
      simp only [hget, compiledV]
      rw [decompEachList_sane D txs acc hs]
      simp only [rebuildStep]
  | k, .undef, R, acc, hs, _ => Bool.noConfusion hs
  | k, .null, R, acc, _, hget => by
      unfold decompStep
      simp only [hget, compiledV, rebuildStep]
  | k, .bool b, R, acc, _, hget => by
      unfold decompStep
      simp only [hget, compiledV, rebuildStep]
  | k, .num q, R, acc, _, hget => by
      unfold decompStep
      simp only [hget, compiledV, rebuildStep]

/-- The element-wise walk over a sane template array and its compiled
elements contributes each element's rebuilt fragment in order. -/
theorem decompEachList_sane (D : JValue) : ∀ (txs : List JValue) (acc : JValue),
    saneElems txs = true →
    decompEachList txs (compiledElems D txs) defaultOptions acc =
      .ok (rebuildElems D txs acc)
  | [], acc, _ => rfl
  | .obj fs :: rest, acc, hs => by
      have hs2 : (keysUniqueB fs && saneFields fs) = true ∧ saneElems rest = true := by
        simpa only [saneElems, saneV, Bool.and_eq_true] using hs
      have hu : keysUniqueB fs = true ∧ saneFields fs = true := by
        simpa only [Bool.and_eq_true] using hs2.1
      have hdec : decompile (.obj fs) (compiledV D (.obj fs)) defaultOptions =
          .ok (rebuildFields D fs (.obj [])) := by
        show decompFields fs (compiledV D (.obj fs)) defaultOptions (.obj []) = _
        have hcv : compiledV D (.obj fs) = .obj (compiledFields D fs) := by
          simp only [compiledV]
        rw [hcv]
        exact decompFields_sane D fs (.obj (compiledFields D fs)) (.obj []) hu.2
          (jsGet_compiled_obj D hu.1)
      show (match decompile (.obj fs) (compiledV D (.obj fs)) defaultOptions with
        | Except.ok frag =>
            decompEachList rest (compiledElems D rest) defaultOptions (jsMerge acc frag)
        | Except.error e2 => Except.error e2) =
        Except.ok (rebuildElems D (.obj fs :: rest) acc)
      rw [hdec]
      exact decompEachList_sane D rest (jsMerge acc (rebuildFields D fs (.obj []))) hs2.2
  | .undef :: rest, acc, hs => by simp [saneElems] at hs
  | .null :: rest, acc, hs => by simp [saneElems] at hs
  | .bool b :: rest, acc, hs => by simp [saneElems] at hs
  | .num q :: rest, acc, hs => by simp [saneElems] at hs
  | .str s :: rest, acc, hs => by simp [saneElems] at hs
  | .arr ys :: rest, acc, hs => by simp [saneElems] at hs

end

/-- C1 (amended): for a sane object template — unique keys, each string leaf
either token-free or one whole untyped token, arrays holding only such
objects — whose referenced paths are all present in `D`, compile succeeds
with the leafwise-substituted image and decompile of that image succeeds,
returning exactly the merge of the per-token fragments
`set({}, path, get(D, path))` in traversal order (so unreferenced values of
`D` are never recovered); when that merge deep-equals `D` — `D` holding
exactly the referenced paths in compatible positions — the round trip
deep-equals `D`. -/
theorem c1_round_trip :
    ∀ (fs : List (String × JValue)) (D : JValue),
      saneV (.obj fs) = true →
      refsOKv D (.obj fs) = true →
      compile (.obj fs) D defaultOptions = .ok (.obj (compiledFields D fs)) ∧
      decompile (.obj fs) (.obj (compiledFields D fs)) defaultOptions =
        .ok (rebuildFields D fs (.obj [])) ∧
      (jsIsEqual (rebuildFields D fs (.obj [])) D = true →
        ∃ out, decompile (.obj fs) (.obj (compiledFields D fs)) defaultOptions =
          .ok out ∧ jsIsEqual out D = true) := by
  intro fs D hs hr
  have hs2 : keysUniqueB fs = true ∧ saneFields fs = true := by
    simpa only [saneV, Bool.and_eq_true] using hs
  have hr2 : refsOKfields D fs = true := hr
  have hdec : decompile (.obj fs) (.obj (compiledFields D fs)) defaultOptions =
      .ok (rebuildFields D fs (.obj [])) := by
    show decompFields fs (.obj (compiledFields D fs)) defaultOptions (.obj []) = _
    exact decompFields_sane D fs (.obj (compiledFields D fs)) (.obj []) hs2.2
      (jsGet_compiled_obj D hs2.1)
  refine ⟨?_, hdec, ?_⟩
  · show (match compileFields fs D defaultOptions with
      | Except.ok gs => Except.ok (JValue.obj gs)
      | Except.error e => Except.error e) = _
    rw [compileFields_sane D fs hs2.2 hr2]
  · intro heq
    exact ⟨rebuildFields D fs (.obj []), hdec, heq⟩

/-- C1 counterexample: with data holding exactly the one referenced path, a
token embedded in literal text stringifies its value on the way out and
decompile recovers the string, not the original number — the round trip is
not a deep-equality in general. -/
theorem c1_round_trip_counterexample :
    compile (.obj [("a", .str "Foo \x7b\x7bx\x7d\x7d")]) (.obj [("x", .num 5)])
        defaultOptions = .ok (.obj [("a", .str "Foo 5")]) ∧
    decompile (.obj [("a", .str "Foo \x7b\x7bx\x7d\x7d")]) (.obj [("a", .str "Foo 5")])
        defaultOptions = .ok (.obj [("x", .str "5")]) ∧
    jsIsEqual (.obj [("x", .str "5")]) (.obj [("x", .num 5)]) = false := by
  exact ⟨by decide, by decide, by decide⟩

/-- Witness for C1: a five-field template with a token leaf, a nested object
token, a literal leaf, a scalar leaf and an array of token-bearing objects
round-trips to data deep-equal to the context. -/
theorem c1_round_trip_witness :
    ∃ out, decompile
      (.obj [("a", .str "\x7b\x7bx\x7d\x7d"),
             ("b", .obj [("c", .str "\x7b\x7by.z\x7d\x7d")]),
             ("d", .str "lit"), ("e", .num 5),
             ("f", .arr [.obj [("g", .str "\x7b\x7bx\x7d\x7d")]])])
      (.obj (compiledFields (.obj [("x", .str "v"), ("y", .obj [("z", .num 1)])])
        [("a", .str "\x7b\x7bx\x7d\x7d"),
         ("b", .obj [("c", .str "\x7b\x7by.z\x7d\x7d")]),
         ("d", .str "lit"), ("e", .num 5),
         ("f", .arr [.obj [("g", .str "\x7b\x7bx\x7d\x7d")]])]))
      defaultOptions = .ok out ∧
    jsIsEqual out (.obj [("x", .str "v"), ("y", .obj [("z", .num 1)])]) = true :=
  (c1_round_trip
    [("a", .str "\x7b\x7bx\x7d\x7d"),
     ("b", .obj [("c", .str "\x7b\x7by.z\x7d\x7d")]),
     ("d", .str "lit"), ("e", .num 5),
     ("f", .arr [.obj [("g", .str "\x7b\x7bx\x7d\x7d")]])]
    (.obj [("x", .str "v"), ("y", .obj [("z", .num 1)])])
    (by decide) (by decide)).2.2 (by decide)

end ObjectTemplate
